import Mathlib

set_option maxHeartbeats 1600000
set_option maxRecDepth 8192

/-!
Verification development for the feature-tasks task-orchestration CLI.

The definitions below are a shallow embedding of the two implementations in
the source tree:

* `src/src/index.ts` (the `taskctl` orchestration CLI backed by SQLite):
  task status records, record normalization at the load boundary, the
  readiness computation, the `start` and `complete` state transitions,
  snapshot export and bootstrap import, and the delegation spec-excerpt
  extraction.
* the task-graph generator script (`generate-task-graph.mjs`): exhaustive
  schema parsing of `tasks.yaml`, graph parity validation, dependency cycle
  detection, and derived edge construction.

Conventions of the embedding:

* JavaScript strings are Lean `String`; the handful of JS string operations
  used by the source (`trim`, `trimEnd`, `toLowerCase`, `split(/\r?\n/)`)
  are implemented below on character lists, restricted to the ASCII
  whitespace forms (plus NBSP) that `\s` covers for the inputs at hand.
* Parsed JSON / YAML values are modelled by the inductive `JVal`; JS
  `undefined` is `Option.none` at field-lookup sites.  A JS number is
  modelled by its `Number.isInteger` flag, its integral value when that
  flag is set, and its string rendering.
* Timestamps (`new Date().toISOString()`) are passed in as an explicit
  `now : String` argument.
* `fail(msg)` / thrown errors become `Except.error`; process exit before
  any write means no state is persisted, so an `Except.error` result
  models "no mutation".
-/

/-! ## JavaScript string primitives -/

/-- Whitespace recognised by JS `\s` and `trim`, restricted to the ASCII
forms plus NBSP (code 160); code 11 is vertical tab, 12 is form feed. -/
def jsIsSpace (c : Char) : Bool :=
  c == ' ' || c == '\t' || c == '\n' || c == '\r' ||
    c == Char.ofNat 11 || c == Char.ofNat 12 || c == Char.ofNat 160

def trimEndChars (cs : List Char) : List Char :=
  (cs.reverse.dropWhile jsIsSpace).reverse

def trimChars (cs : List Char) : List Char :=
  trimEndChars (cs.dropWhile jsIsSpace)

/-- JS `String.prototype.trim`. -/
def jsTrim (s : String) : String := String.mk (trimChars s.data)

/-- JS `String.prototype.trimEnd`. -/
def jsTrimEnd (s : String) : String := String.mk (trimEndChars s.data)

/-- JS `content.split(/\r?\n/)` on character lists: a separator is either
`\r\n` or a lone `\n`; a lone `\r` is not a separator.  A trailing
separator contributes a final empty segment, exactly as in JS. -/
def splitLinesChars : List Char → List Char → List (List Char)
  | [], acc => [acc.reverse]
  | '\r' :: '\n' :: rest, acc => acc.reverse :: splitLinesChars rest []
  | '\n' :: rest, acc => acc.reverse :: splitLinesChars rest []
  | c :: rest, acc => splitLinesChars rest (c :: acc)

def splitLines (s : String) : List String :=
  (splitLinesChars s.data []).map String.mk

def jsToLower (s : String) : String := String.mk (s.data.map Char.toLower)

/-! ### Sorting

JS `Array.prototype.sort` with a total comparator produces the unique
sorted permutation of its input; it is modelled here by a structural
insertion sort parameterised by a boolean `le`, together with string
comparison by code point (the model adopted for both the default sort
and `localeCompare`). -/

def insertLe (le : α → α → Bool) (a : α) : List α → List α
  | [] => [a]
  | b :: bs => if le a b then a :: b :: bs else b :: insertLe le a bs

def sortByLe (le : α → α → Bool) : List α → List α
  | [] => []
  | a :: as => insertLe le a (sortByLe le as)

/-- Strict code-point order on character lists. -/
def charListLt : List Char → List Char → Bool
  | [], [] => false
  | [], _ :: _ => true
  | _ :: _, [] => false
  | a :: as, b :: bs =>
    if a.toNat < b.toNat then true
    else if b.toNat < a.toNat then false
    else charListLt as bs

def strLtB (a b : String) : Bool := charListLt a.data b.data

def strLeB (a b : String) : Bool := strLtB a b || a == b

/-! ## JSON / YAML values -/

/-- A parsed JSON (or YAML) value.  A number carries its
`Number.isInteger` flag, its integral value when that flag is set, and
its JS string rendering. -/
inductive JVal where
  | null
  | boolean (b : Bool)
  | number (isInt : Bool) (intVal : Int) (repr : String)
  | str (s : String)
  | arr (elems : List JVal)
  | obj (fields : List (String × JVal))

mutual

/-- JS `String(value)` for the shapes that occur in parsed JSON.
`String([a, b])` is the comma-join of the elements with `null` rendered
as the empty string; `String(obj)` is `[object Object]`. -/
def jsToString : JVal → String
  | .null => "null"
  | .boolean b => if b then "true" else "false"
  | .number _ _ r => r
  | .str s => s
  | .arr elems => String.intercalate "," (jsArrElems elems)
  | .obj _ => "[object Object]"

def jsArrElems : List JVal → List String
  | [] => []
  | .null :: rest => "" :: jsArrElems rest
  | v :: rest => jsToString v :: jsArrElems rest

end

/-- The source's `normalizeString(value)`:
`value === undefined || value === null ? "" : String(value).trim()`. -/
def normalizeString (v : Option JVal) : String :=
  match v with
  | none => ""
  | some .null => ""
  | some w => jsTrim (jsToString w)

/-- Field lookup on a JSON object.  `JSON.parse` keeps the last of
duplicate keys, hence the reversed search. -/
def objGet (fields : List (String × JVal)) (key : String) : Option JVal :=
  (fields.reverse.find? (fun p => p.1 == key)).map (fun p => p.2)

/-! ## taskctl: status records and normalization (`src/src/index.ts`) -/

/-- The `VALID_STATES` enum of `index.ts`. -/
inductive TState where
  | todo
  | in_progress
  | done
  | blocked
deriving DecidableEq, Repr

def stateToString : TState → String
  | .todo => "todo"
  | .in_progress => "in_progress"
  | .done => "done"
  | .blocked => "blocked"

structure TaskStatusRecord where
  state : TState
  owner : String
  attempts : Int
  started_at : Option String
  finished_at : Option String
  blockers : List String
  files_changed : List String
  tests_run : List String
  result_summary : String
  next_unblocked_tasks : List String
deriving DecidableEq, Repr

/-- `defaultTaskStatus()` of `index.ts`. -/
def defaultTaskStatus : TaskStatusRecord :=
  { state := .todo, owner := "", attempts := 0, started_at := none,
    finished_at := none, blockers := [], files_changed := [],
    tests_run := [], result_summary := "", next_unblocked_tasks := [] }

/-- `normalizeState(value)`: `VALID_STATES.has(value) ? value : "todo"`.
`Set.has` uses strict equality, so only the four exact state strings are
recognised; every other value coerces to `todo`. -/
def normalizeState (v : Option JVal) : TState :=
  match v with
  | some (.str "todo") => .todo
  | some (.str "in_progress") => .in_progress
  | some (.str "done") => .done
  | some (.str "blocked") => .blocked
  | _ => .todo

/-- An array field of a raw record:
`Array.isArray(x) ? x.map(normalizeString).filter(Boolean) : []`. -/
def normalizeStringList (v : Option JVal) : List String :=
  match v with
  | some (.arr items) =>
    (items.map (fun item => normalizeString (some item))).filter (fun s => s != "")
  | _ => []

/-- A timestamp field: `normalizeString(x) || null`. -/
def normalizeOptTimestamp (v : Option JVal) : Option String :=
  let s := normalizeString v
  if s == "" then none else some s

/-- The attempts field:
`Number.isInteger(x) && x > 0 ? x : 0`. -/
def normalizeAttempts (v : Option JVal) : Int :=
  match v with
  | some (.number true n _) => if 0 < n then n else 0
  | _ => 0

/-- `typeof value === "object" && value !== null && !Array.isArray(value)
? value : {}` -/
def recordFields (v : Option JVal) : List (String × JVal) :=
  match v with
  | some (.obj fields) => fields
  | _ => []

/-- `normalizeTaskStatusRecord(value)` of `index.ts`: total defensive
coercion of an arbitrary stored value into a well-formed record. -/
def normalizeTaskStatusRecord (v : Option JVal) : TaskStatusRecord :=
  let fields := recordFields v
  { state := normalizeState (objGet fields "state")
    owner := normalizeString (objGet fields "owner")
    attempts := normalizeAttempts (objGet fields "attempts")
    started_at := normalizeOptTimestamp (objGet fields "started_at")
    finished_at := normalizeOptTimestamp (objGet fields "finished_at")
    blockers := normalizeStringList (objGet fields "blockers")
    files_changed := normalizeStringList (objGet fields "files_changed")
    tests_run := normalizeStringList (objGet fields "tests_run")
    result_summary := normalizeString (objGet fields "result_summary")
    next_unblocked_tasks := normalizeStringList (objGet fields "next_unblocked_tasks") }

/-! ## taskctl: plans, statuses, readiness -/

/-- A task as loaded by `readTasksFromYaml` / `readTasksFromGraph`. -/
structure CTask where
  id : String
  title : String
  blocked_by : List String
  acceptance : List String
  deliverables : List String
  context : List String
deriving DecidableEq, Repr

/-- A loaded plan: `taskOrder` is the declaration order of task ids and
`tasksById` the id-indexed lookup.  The loaders populate both in tandem,
so for every plan they build, `tasksById` is defined on each entry of
`taskOrder`. -/
structure Plan where
  project : String
  taskOrder : List String
  tasksById : String → Option CTask

/-- A loaded status: the per-task record map.  `loadStatus` creates a
record for every task of the plan, so on loaded statuses `tasks` is
defined on each entry of the plan's `taskOrder`. -/
structure Status where
  project : String
  tasks : String → Option TaskStatusRecord

/-- `status.tasks[dependencyId]?.state === "done"`. -/
def dependencyDone (status : Status) (dependencyId : String) : Bool :=
  match status.tasks dependencyId with
  | some r => r.state == .done
  | none => false

/-- `taskIsUnblocked(task, status)` of `index.ts`. -/
def taskIsUnblocked (task : CTask) (status : Status) : Bool :=
  task.blocked_by.all (fun dependencyId => dependencyDone status dependencyId)

/-- `getReadyTaskIds(plan, status)` of `index.ts`: filter the declaration
order, keeping tasks whose record exists and is `todo` and whose every
dependency has a record in state `done`.  (For plans built by the
loaders the inner `tasksById` lookup never misses; the `none` branch is
the JS crash that cannot be reached on such plans.) -/
def getReadyTaskIds (plan : Plan) (status : Status) : List String :=
  plan.taskOrder.filter (fun taskId =>
    match status.tasks taskId with
    | none => false
    | some taskStatus =>
      taskStatus.state == .todo &&
        (match plan.tasksById taskId with
         | some task => taskIsUnblocked task status
         | none => false))

/-! ## taskctl: dependency validation of the runtime loader -/

/-- One task's `blocked_by` scan inside `validateDependencies`: the first
unknown-dependency or self-dependency aborts the whole command. -/
def checkTaskDeps (known : List String) (taskId : String) : List String → Except String Unit
  | [] => .ok ()
  | dep :: rest =>
    if !(known.contains dep) then
      .error ("Task " ++ taskId ++ " references unknown dependency " ++ dep)
    else if dep == taskId then
      .error ("Task " ++ taskId ++ " cannot depend on itself")
    else checkTaskDeps known taskId rest

def validateDependenciesGo (plan : Plan) (known : List String) : List String → Except String Unit
  | [] => .ok ()
  | taskId :: rest =>
    match plan.tasksById taskId with
    | none => validateDependenciesGo plan known rest
    | some task =>
      match checkTaskDeps known taskId task.blocked_by with
      | .error e => .error e
      | .ok _ => validateDependenciesGo plan known rest

/-- `validateDependencies(plan)` of `index.ts`: fail-fast scan in
declaration order; `fail` exits the process at the first violation. -/
def validateDependencies (plan : Plan) : Except String Unit :=
  validateDependenciesGo plan plan.taskOrder plan.taskOrder

/-! ## taskctl: the `start` and `complete` transitions -/

/-- `markTaskStarted(plan, status, taskId, owner)` of `index.ts`, with the
timestamp passed explicitly.  The record lookup `status.tasks[taskId]`
is modelled with the `defaultTaskStatus` fallback because `loadStatus`
materialises exactly that default for any plan task without a stored
row.  An `Except.error` models `fail`, which exits before any write. -/
def markTaskStarted (plan : Plan) (status : Status) (taskId : String)
    (owner : String) (now : String) : Except String TaskStatusRecord :=
  match plan.tasksById taskId with
  | none => .error ("Unknown task: " ++ taskId)
  | some task =>
    if !(taskIsUnblocked task status) then
      .error ("Task " ++ taskId ++ " is blocked by: " ++
        String.intercalate ", "
          (task.blocked_by.filter (fun d => !(dependencyDone status d))))
    else
      let record := (status.tasks taskId).getD defaultTaskStatus
      if record.state != .todo then
        .error ("Task " ++ taskId ++ " must be in todo state to start")
      else
        .ok { record with
          state := .in_progress
          owner := owner
          attempts := record.attempts + 1
          started_at := some now
          finished_at := none
          blockers := []
          files_changed := []
          tests_run := []
          result_summary := ""
          next_unblocked_tasks := [] }

/-- The `--result` enum of `commandComplete`. -/
inductive CResult where
  | done
  | blocked
  | failed
deriving DecidableEq, Repr

def resultName : CResult → String
  | .done => "done"
  | .blocked => "blocked"
  | .failed => "failed"

/-- The record mutation of `commandComplete` in `index.ts`, acting on the
task's current record (flags already parsed: `summaryText` is the
`--summary` text, the four lists are the parsed `--files` / `--tests` /
`--blockers` / `--next` values, `owner` is the optional `--owner`, empty
when absent).  The state check happens before any field is touched;
`fail` exits with the transaction open, so nothing is persisted on the
error path. -/
def commandCompleteCore (record : TaskStatusRecord) (result : CResult)
    (summaryText : String) (filesChanged testsRun blockers nextUnblocked : List String)
    (owner : String) (now : String) : Except String TaskStatusRecord :=
  if record.state != .in_progress && record.state != .todo then
    .error ("Task cannot be completed from state " ++ stateToString record.state)
  else
    let r1 := { record with
      started_at := match record.started_at with
        | none => some now
        | some s => some s }
    let r2 := if owner != "" then { r1 with owner := owner } else r1
    let r3 := { r2 with
      result_summary := summaryText
      files_changed := filesChanged
      tests_run := testsRun
      next_unblocked_tasks := nextUnblocked
      finished_at := some now }
    if result == .done then
      .ok { r3 with state := .done, blockers := [] }
    else
      .ok { r3 with
        state := .blocked
        blockers := if blockers.length > 0 then blockers
                    else ["task reported " ++ resultName result] }

/-! ## taskctl: spec excerpt extraction -/

/-- The punctuation class stripped by `headingSlug`: the characters of
the JS class (backquote, tilde, bang, at, hash, dollar, percent, caret,
ampersand, star, parens, plus, equals, square brackets, curly braces,
pipe, backslash, colon, semicolon, double and single quote, angle
brackets, comma, dot, question mark, slash).  Codes 96, 123, 125, 92,
34 and 39 are backquote, the curly braces, backslash and the two
quotes. -/
def slugPunct : List Char :=
  ['~', '!', '@', '#', '$', '%', '^', '&', '*', '(', ')', '+', '=',
   '[', ']', '|', ':', ';', '<', '>', ',', '.', '?', '/',
   Char.ofNat 96, Char.ofNat 123, Char.ofNat 125, Char.ofNat 92,
   Char.ofNat 34, Char.ofNat 39]

/-- Collapse runs of hyphens to a single hyphen (the `replace` of the
regex "one or more hyphens" by a single hyphen). -/
def collapseHyphens : List Char → List Char
  | [] => []
  | '-' :: '-' :: rest => collapseHyphens ('-' :: rest)
  | c :: rest => c :: collapseHyphens rest

/-- Strip leading and trailing hyphens (the `replace` of leading and
trailing hyphen runs by the empty string). -/
def trimHyphens (cs : List Char) : List Char :=
  ((cs.dropWhile (fun c => c == '-')).reverse.dropWhile (fun c => c == '-')).reverse

/-- `headingSlug(text)` of `index.ts`: trim, lower-case, strip the
punctuation class, turn whitespace into hyphens, collapse hyphen runs,
strip outer hyphens.  The source replaces each whitespace RUN by one
hyphen and then collapses hyphen runs; mapping every whitespace
character to a hyphen before the same collapse yields the identical
result, which is how it is realised here.  Underscores and hyphens are
untouched by the punctuation strip. -/
def headingSlug (s : String) : String :=
  String.mk (trimHyphens (collapseHyphens
    ((((jsTrim s).data.map Char.toLower).filter
        (fun c => !(slugPunct.contains c))).map
      (fun c => if jsIsSpace c then '-' else c))))

/-- JS word characters, for the `\b` boundary of the anchor regex. -/
def isWordChar (c : Char) : Bool := c.isAlphanum || c == '_'

/-- The anchor character class `[A-Za-z0-9._-]`. -/
def isAnchorChar (c : Char) : Bool :=
  c.isAlphanum || c == '.' || c == '_' || c == '-'

def specMdHashPat : List Char := ['s', 'p', 'e', 'c', '.', 'm', 'd', '#']

/-- Case-insensitive literal prefix test. -/
def startsWithLower : List Char → List Char → Bool
  | [], _ => true
  | _ :: _, [] => false
  | p :: ps, c :: rest => p == c.toLower && startsWithLower ps rest

/-- First match of `/\bSPEC\.md#([A-Za-z0-9._-]+)/i` in a string, as the
captured anchor characters: scan left to right for a position preceded
by a non-word character (or the start) where the literal `SPEC.md#`
matches case-insensitively and at least one anchor character follows. -/
def findAnchorIn : Option Char → List Char → Option (List Char)
  | _, [] => none
  | prev, c :: rest =>
    let boundaryOk := match prev with
      | none => true
      | some pc => !(isWordChar pc)
    if boundaryOk && startsWithLower specMdHashPat (c :: rest) then
      let anchor := ((c :: rest).drop 8).takeWhile isAnchorChar
      if anchor.isEmpty then findAnchorIn (some c) rest
      else some anchor
    else findAnchorIn (some c) rest

/-- `extractSpecAnchors(context)` of `index.ts`: for each context entry
take the first `SPEC.md#<anchor>` match, replace underscores by hyphens
in the captured anchor, slugify it, and collect the non-empty results
into an insertion-ordered deduplicated list (the JS `Set`). -/
def extractSpecAnchors (context : List String) : List String :=
  context.foldl (fun anchors entry =>
    match findAnchorIn none entry.data with
    | none => anchors
    | some anchorCs =>
      let anchor := headingSlug (String.mk
        (anchorCs.map (fun c => if c == '_' then '-' else c)))
      if anchor == "" then anchors
      else if anchors.contains anchor then anchors
      else anchors ++ [anchor]) []

/-- One line matched against `/^(#{1,6})\s+(.+?)\s*$/`: one to six
hashes, at least one whitespace character, and at least one further
character.  The captured text is the remainder trimmed (when the
remainder is all whitespace the JS capture is a single whitespace
character, whose slug is likewise empty), so the heading is recorded by
its level and the slug of the trimmed remainder. -/
def parseHeading (line : String) : Option (Nat × String) :=
  let cs := line.data
  let hashes := cs.takeWhile (fun c => c == '#')
  let k := hashes.length
  if k == 0 || 6 < k then none
  else
    match cs.drop k with
    | [] => none
    | c :: rest2 =>
      if jsIsSpace c && !rest2.isEmpty then
        some (k, headingSlug (String.mk (trimChars (c :: rest2))))
      else none

structure Heading where
  line : Nat
  level : Nat
  slug : String
deriving DecidableEq, Repr

/-- The heading scan of `extractMarkdownSections`, indexed from `i`. -/
def findHeadings : Nat → List String → List Heading
  | _, [] => []
  | i, l :: rest =>
    match parseHeading l with
    | some (k, slug) => ⟨i, k, slug⟩ :: findHeadings (i + 1) rest
    | none => findHeadings (i + 1) rest

/-- The end line of a section: the line of the next heading of
equal-or-shallower level among the following headings, or the total
line count. -/
def sectionEndLine (total level : Nat) (rest : List Heading) : Nat :=
  match rest.find? (fun h2 => h2.level ≤ level) with
  | some h2 => h2.line
  | none => total

/-- The section-collection loop of `extractMarkdownSections`, including
the `usedStarts` guard of the source. -/
def sectionsGo (lines anchors : List String) (used : List Nat) :
    List Heading → List String
  | [] => []
  | h :: rest =>
    if anchors.contains h.slug && !(used.contains h.line) then
      let endLine := sectionEndLine lines.length h.level rest
      let txt := jsTrimEnd (String.intercalate "\n"
        ((lines.drop h.line).take (endLine - h.line)))
      let tail := sectionsGo lines anchors (h.line :: used) rest
      if txt == "" then tail else txt :: tail
    else sectionsGo lines anchors used rest

/-- `extractMarkdownSections(content, targetAnchors)` of `index.ts`. -/
def extractMarkdownSections (content : String) (targetAnchors : List String) :
    List String :=
  let lines := splitLines content
  sectionsGo lines targetAnchors [] (findHeadings 0 lines)

inductive ExcerptMode where
  | missing
  | full
  | no_references
  | no_matching_sections
  | sections
deriving DecidableEq, Repr

structure SpecExcerpt where
  excerpt : String
  mode : ExcerptMode
deriving DecidableEq, Repr

/-- `resolveSpecExcerpt(specPath, context)` of `index.ts`, with the
existence check and file read replaced by the flag and content
arguments.  The line count is the length of `content.split(/\r?\n/)`,
so a trailing newline contributes one extra (empty) line. -/
def resolveSpecExcerpt (specExists : Bool) (content : String)
    (context : List String) : SpecExcerpt :=
  if !specExists then { excerpt := "", mode := .missing }
  else
    let lineCount := (splitLines content).length
    if lineCount ≤ 200 then { excerpt := jsTrimEnd content, mode := .full }
    else
      let anchors := extractSpecAnchors context
      if anchors.isEmpty then { excerpt := "", mode := .no_references }
      else
        let sections := extractMarkdownSections content anchors
        if sections.isEmpty then { excerpt := "", mode := .no_matching_sections }
        else
          { excerpt := jsTrimEnd (String.intercalate "\n\n" sections),
            mode := .sections }

/-! ## taskctl: snapshot export and bootstrap import -/

structure Summary where
  todo : Nat
  in_progress : Nat
  done : Nat
  blocked : Nat
deriving DecidableEq, Repr

def countState (tasks : String → Option TaskStatusRecord)
    (taskOrder : List String) (s : TState) : Nat :=
  (taskOrder.filter
    (fun t => ((tasks t).getD defaultTaskStatus).state == s)).length

/-- `summarizeTasks(tasks, taskOrder)` of `index.ts`: per-state counts
over the plan order (expressed as one filtered count per state, which
agrees with the single-pass increment of the source). -/
def summarizeTasks (tasks : String → Option TaskStatusRecord)
    (taskOrder : List String) : Summary :=
  { todo := countState tasks taskOrder .todo
    in_progress := countState tasks taskOrder .in_progress
    done := countState tasks taskOrder .done
    blocked := countState tasks taskOrder .blocked }

def jvalOfOptString : Option String → JVal
  | none => .null
  | some s => .str s

/-- The JSON shape of one task record inside the exported
`task.status.json` snapshot written by `writeStatus`. -/
def recordToJVal (r : TaskStatusRecord) : JVal :=
  .obj [("state", .str (stateToString r.state)),
        ("owner", .str r.owner),
        ("attempts", .number true r.attempts (toString r.attempts)),
        ("started_at", jvalOfOptString r.started_at),
        ("finished_at", jvalOfOptString r.finished_at),
        ("blockers", .arr (r.blockers.map JVal.str)),
        ("files_changed", .arr (r.files_changed.map JVal.str)),
        ("tests_run", .arr (r.tests_run.map JVal.str)),
        ("result_summary", .str r.result_summary),
        ("next_unblocked_tasks", .arr (r.next_unblocked_tasks.map JVal.str))]

def summaryToJVal (s : Summary) : JVal :=
  .obj [("todo", .number true (Int.ofNat s.todo) (toString s.todo)),
        ("in_progress", .number true (Int.ofNat s.in_progress) (toString s.in_progress)),
        ("done", .number true (Int.ofNat s.done) (toString s.done)),
        ("blocked", .number true (Int.ofNat s.blocked) (toString s.blocked))]

/-- The snapshot document written by `writeStatus` of `index.ts`: the
`tasks` object holds, for each task of the plan order, the status
record (or the default record when the status map has none). -/
def writeStatusSnapshot (status : Status) (planTaskOrder : List String)
    (updatedAt : String) : JVal :=
  .obj [("project", .str status.project),
        ("schema_version", .number true 2 "2"),
        ("updated_at", .str updatedAt),
        ("summary", summaryToJVal (summarizeTasks status.tasks planTaskOrder)),
        ("tasks", .obj (planTaskOrder.map (fun taskId =>
          (taskId, recordToJVal ((status.tasks taskId).getD defaultTaskStatus)))))]

structure RawSnapshot where
  project : String
  tasks : List (String × JVal)

/-- `readStatusSnapshot(paths)` of `index.ts`, on the already-parsed
JSON value: a non-object root fails (as does unparseable JSON, outside
this model); otherwise the project is normalized and the `tasks` field
is taken when it is an object (an array-valued `tasks` also passes the
JS `typeof` check but holds no task-id keys, modelled as the empty
field list). -/
def readStatusSnapshot (v : JVal) : Except String RawSnapshot :=
  match v with
  | .obj fields =>
    .ok { project := normalizeString (objGet fields "project")
          tasks := match objGet fields "tasks" with
            | some (.obj fs) => fs
            | _ => [] }
  | _ => .error "task.status.json must define an object root"

structure BootstrapResult where
  records : List (String × TaskStatusRecord)
  warnings : List String
deriving DecidableEq, Repr

/-- The bootstrap-from-snapshot branch of `bootstrapDbForPlan` in
`index.ts`: with a fresh store (no task rows yet) and an existing
snapshot document, the snapshot is read, a project mismatch is pushed
as a warning (never a failure), and for every task of the plan the
snapshot record is normalized and upserted (tasks absent from the
snapshot normalize to the default `todo` record, matching the
subsequent default insert). -/
def bootstrapImportFresh (plan : Plan) (snapshotDoc : JVal) :
    Except String BootstrapResult :=
  match readStatusSnapshot snapshotDoc with
  | .error e => .error e
  | .ok snapshot =>
    let warnings :=
      if snapshot.project != "" && snapshot.project != plan.project then
        ["Imported status project \"" ++ snapshot.project ++
          "\" does not match plan project \"" ++ plan.project ++
          "\". Using plan project."]
      else []
    .ok { records := plan.taskOrder.map (fun taskId =>
            (taskId, normalizeTaskStatusRecord (objGet snapshot.tasks taskId)))
          warnings := warnings }

/-! ## Generator script: schema parsing of tasks.yaml -/

/-- Field-level schema errors pushed by the generator's small parsers
(`parseRequiredString`, `parseOptionalStringList`,
`parseRequiredStringList`, `parseIdentifierList`) and by the enum
checks.  Each carries the label string the source would interpolate. -/
inductive FErr where
  | required (label : String)
  | mustBeStringArray (label : String)
  | itemMustBeNonempty (label : String) (idx : Nat)
  | minItems (label : String) (n : Nat)
  | mustBeIdArray (label : String)
  | itemMustBeTaskId (label : String) (idx : Nat)
  | priorityEnum (label : String)
  | ownerTypeEnum (label : String)
deriving DecidableEq, Repr

/-- Document-level schema errors collected by `parseTasksYaml`: one
constructor per distinct push into its `errors` array.  `taskEntry`
is the combined per-entry push (the bracketed key followed by the
joined field errors), used for tasks and for group entries alike. -/
inductive PErr where
  | versionMustBe3
  | top (e : FErr)
  | tasksRequired
  | tasksMustBeNonempty
  | taskMustBeObject (idx : Nat)
  | groupMustBeArray (key : String)
  | groupEntryMustBeObject (key : String) (idx : Nat)
  | taskEntry (key : String) (fieldErrors : List FErr)
  | duplicateIds (label : String) (ids : List String)
deriving DecidableEq, Repr

/-- `parseRequiredString(value, label, errors)` of the generator. -/
def parseRequiredStringG (v : Option JVal) (label : String) :
    String × List FErr :=
  let text := normalizeString v
  if text == "" then ("", [.required label]) else (text, [])

/-- `parseOptionalString(value)` of the generator (trim, empty for
undefined and null). -/
def parseOptionalStringG (v : Option JVal) : String := normalizeString v

/-- The shared element loop of the two string-list parsers: normalize
each element, push an error and skip it when it trims to empty. -/
def parseStringListItems (label : String) : Nat → List JVal → List String × List FErr
  | _, [] => ([], [])
  | i, v :: rest =>
    let item := normalizeString (some v)
    let (items, errs) := parseStringListItems label (i + 1) rest
    if item == "" then (items, .itemMustBeNonempty label i :: errs)
    else (item :: items, errs)

/-- `parseOptionalStringList(value, label, errors)` of the generator. -/
def parseOptionalStringListG (v : Option JVal) (label : String) :
    List String × List FErr :=
  match v with
  | none => ([], [])
  | some .null => ([], [])
  | some (.arr items) => parseStringListItems label 0 items
  | some _ => ([], [.mustBeStringArray label])

/-- `parseRequiredStringList(value, label, errors, { minItems })`. -/
def parseRequiredStringListG (v : Option JVal) (label : String)
    (minItemsN : Nat) : List String × List FErr :=
  match v with
  | none => ([], [.required label])
  | some .null => ([], [.required label])
  | some (.arr itemsRaw) =>
    let (items, errs) := parseStringListItems label 0 itemsRaw
    if items.length < minItemsN then (items, errs ++ [.minItems label minItemsN])
    else (items, errs)
  | some _ => ([], [.mustBeStringArray label])

/-- The element loop of `parseIdentifierList`: normalize, report empty
IDs, and collapse duplicates (first occurrence kept). -/
def parseIdListItems (label : String) : Nat → List String → List JVal →
    List String × List FErr
  | _, _, [] => ([], [])
  | i, seen, v :: rest =>
    let taskId := normalizeString (some v)
    if taskId == "" then
      let (ids, errs) := parseIdListItems label (i + 1) seen rest
      (ids, .itemMustBeTaskId label i :: errs)
    else if seen.contains taskId then parseIdListItems label (i + 1) seen rest
    else
      let (ids, errs) := parseIdListItems label (i + 1) (taskId :: seen) rest
      (taskId :: ids, errs)

/-- `parseIdentifierList(value, label, errors, { required })`. -/
def parseIdentifierListG (v : Option JVal) (label : String)
    (required : Bool) : List String × List FErr :=
  match v with
  | none => ([], if required then [.required label] else [])
  | some .null => ([], if required then [.required label] else [])
  | some (.arr items) => parseIdListItems label 0 [] items
  | some _ => ([], [.mustBeIdArray label])

/-- The duplicate scan of `assertUniqueIds`: ids already seen are
collected (once each, in first-duplicate order) and empty ids are
skipped. -/
def dupsGo : List String → List String → List String → List String
  | _, dups, [] => dups
  | seen, dups, id :: rest =>
    if id == "" then dupsGo seen dups rest
    else if seen.contains id then
      if dups.contains id then dupsGo (id :: seen) dups rest
      else dupsGo (id :: seen) (dups ++ [id]) rest
    else dupsGo (id :: seen) dups rest

/-- `assertUniqueIds(items, key, label, errors)`: one combined error
listing the sorted duplicates, when any exist. -/
def assertUniqueIdsG (ids : List String) (label : String) : List PErr :=
  let dups := dupsGo [] [] ids
  if dups.isEmpty then []
  else [.duplicateIds label (sortByLe strLeB dups)]

/-- A task as parsed by the generator (schema v3). -/
structure GTask where
  id : String
  phase : String
  priority : String
  title : String
  blocked_by : List String
  acceptance : List String
  deliverables : List String
  owner_type : String
  estimate : String
  notes : String
  context : List String
deriving DecidableEq, Repr

structure TaskGroup where
  id : String
  tasks : List String
deriving DecidableEq, Repr

structure ParsedDoc where
  version : Option Int
  project : String
  tasks : List GTask
  criticalPaths : List TaskGroup
  parallelWindows : List TaskGroup
deriving Repr

def prioritiesList : List String := ["low", "medium", "high", "critical"]

def ownerTypesList : List String :=
  ["frontend", "backend", "infra", "docs", "qa", "fullstack"]

def taskIndexLabel (i : Nat) : String := "tasks[" ++ toString i ++ "]"

def taskLabel (i : Nat) (field : String) : String :=
  taskIndexLabel i ++ "." ++ field

def groupEntryKey (key : String) (i : Nat) : String :=
  key ++ "[" ++ toString i ++ "]"

def groupLabel (key : String) (i : Nat) (field : String) : String :=
  groupEntryKey key i ++ "." ++ field

/-- The placeholder task returned for a non-object `tasks[i]` entry. -/
def placeholderTask (i : Nat) : GTask :=
  { id := taskIndexLabel i, phase := "", priority := "", title := "",
    blocked_by := [], acceptance := [], deliverables := [],
    owner_type := "", estimate := "", notes := "", context := [] }

/-- One entry of the generator's `tasks` map: parse all fields,
collect the field errors, and wrap them (when any) into a single
`taskEntry` keyed by the task id (or the positional key when the id is
missing).  A non-object entry yields the placeholder task and a
`taskMustBeObject` error. -/
def parseTaskEntry (i : Nat) (v : JVal) : GTask × List PErr :=
  match v with
  | .obj fields =>
    let (id, e1) := parseRequiredStringG (objGet fields "id") (taskLabel i "id")
    let (phase, e2) := parseRequiredStringG (objGet fields "phase") (taskLabel i "phase")
    let (priority, e3) := parseRequiredStringG (objGet fields "priority") (taskLabel i "priority")
    let e3b := if priority != "" && !(prioritiesList.contains priority)
      then [FErr.priorityEnum (taskLabel i "priority")] else []
    let (title, e4) := parseRequiredStringG (objGet fields "title") (taskLabel i "title")
    let (blockedBy, e5) := parseIdentifierListG (objGet fields "blocked_by") (taskLabel i "blocked_by") true
    let (acceptance, e6) := parseRequiredStringListG (objGet fields "acceptance") (taskLabel i "acceptance") 1
    let (deliverables, e7) := parseRequiredStringListG (objGet fields "deliverables") (taskLabel i "deliverables") 1
    let (ownerType, e8) := parseRequiredStringG (objGet fields "owner_type") (taskLabel i "owner_type")
    let e8b := if ownerType != "" && !(ownerTypesList.contains ownerType)
      then [FErr.ownerTypeEnum (taskLabel i "owner_type")] else []
    let (estimate, e9) := parseRequiredStringG (objGet fields "estimate") (taskLabel i "estimate")
    let notes := parseOptionalStringG (objGet fields "notes")
    let (context, e10) := parseOptionalStringListG (objGet fields "context") (taskLabel i "context")
    let fieldErrors := e1 ++ e2 ++ e3 ++ e3b ++ e4 ++ e5 ++ e6 ++ e7 ++ e8 ++ e8b ++ e9 ++ e10
    let task : GTask :=
      { id := id, phase := phase, priority := priority, title := title,
        blocked_by := blockedBy, acceptance := acceptance,
        deliverables := deliverables, owner_type := ownerType,
        estimate := estimate, notes := notes, context := context }
    (task, if fieldErrors.isEmpty then []
           else [.taskEntry (if id == "" then taskIndexLabel i else id) fieldErrors])
  | _ => (placeholderTask i, [.taskMustBeObject i])

/-- The generator's map over the raw `tasks` array, threading the
per-entry errors through in order. -/
def parseTasksList : Nat → List JVal → List GTask × List PErr
  | _, [] => ([], [])
  | i, v :: rest =>
    ((parseTaskEntry i v).1 :: (parseTasksList (i + 1) rest).1,
     (parseTaskEntry i v).2 ++ (parseTasksList (i + 1) rest).2)

/-- One entry of `parseGroup` (critical path or parallel window). -/
def parseGroupEntry (key : String) (i : Nat) (v : JVal) : TaskGroup × List PErr :=
  match v with
  | .obj fields =>
    let (id, e1) := parseRequiredStringG (objGet fields "id") (groupLabel key i "id")
    let (taskIds, e2) := parseIdentifierListG (objGet fields "tasks") (groupLabel key i "tasks") true
    let fieldErrors := e1 ++ e2
    (⟨id, taskIds⟩,
      if fieldErrors.isEmpty then []
      else [.taskEntry (if id == "" then groupEntryKey key i else id) fieldErrors])
  | _ => (⟨groupEntryKey key i, []⟩, [.groupEntryMustBeObject key i])

def parseGroupList (key : String) : Nat → List JVal → List TaskGroup × List PErr
  | _, [] => ([], [])
  | i, v :: rest =>
    ((parseGroupEntry key i v).1 :: (parseGroupList key (i + 1) rest).1,
     (parseGroupEntry key i v).2 ++ (parseGroupList key (i + 1) rest).2)

/-- `parseGroup(key, label)` of the generator. -/
def parseGroupG (v : Option JVal) (key : String) : List TaskGroup × List PErr :=
  match v with
  | none => ([], [])
  | some .null => ([], [])
  | some (.arr entries) => parseGroupList key 0 entries
  | some _ => ([], [.groupMustBeArray key])

/-- JS `Number(value)` restricted to `Number.isInteger` outcomes:
`none` stands for NaN or a non-integral number (either way the version
check fails).  `Number(null)` is 0, booleans coerce to 0 and 1, and an
all-whitespace string coerces to 0; numeric strings are read as
decimal integers (other numeric string syntaxes, arrays and objects
are conservatively modelled as NaN — the version field of a YAML
document is a scalar). -/
def jsNumberCoerce (v : Option JVal) : Option Int :=
  match v with
  | none => none
  | some .null => some 0
  | some (.boolean b) => some (if b then 1 else 0)
  | some (.number true n _) => some n
  | some (.number false _ _) => none
  | some (.str s) =>
    let t := jsTrim s
    if t == "" then some 0 else t.toInt?
  | some (.arr _) => none
  | some (.obj _) => none

/-- The version field after `Number` coercion. -/
def versionOf (fields : List (String × JVal)) : Option Int :=
  jsNumberCoerce (objGet fields "version")

/-- The error of the `version must be 3` check. -/
def versionErrsOf (fields : List (String × JVal)) : List PErr :=
  if versionOf fields = some 3 then [] else [.versionMustBe3]

/-- The parsed project name with its errors. -/
def parsedProject (fields : List (String × JVal)) : String × List FErr :=
  parseRequiredStringG (objGet fields "project") "project"

/-- The raw `tasks` array (empty when missing or not an array). -/
def rawTasksOf (fields : List (String × JVal)) : List JVal :=
  match objGet fields "tasks" with
  | some (.arr ts) => ts
  | _ => []

/-- The shape errors of the `tasks` field. -/
def tasksShapeErrsOf (fields : List (String × JVal)) : List PErr :=
  match objGet fields "tasks" with
  | some (.arr ts) => if ts.isEmpty then [.tasksMustBeNonempty] else []
  | _ => [.tasksRequired]

/-- The body of `parseTasksYaml` after the object-root check: parse
every part of the document, collecting every error into one list, in
the source's push order (version, project, tasks shape, per-task
entries, critical paths, parallel windows, duplicate-id checks). -/
def parseTasksYamlParts (fields : List (String × JVal)) :
    ParsedDoc × List PErr :=
  let tasksPair := parseTasksList 0 (rawTasksOf fields)
  let cpPair := parseGroupG (objGet fields "critical_paths") "critical_paths"
  let pwPair := parseGroupG (objGet fields "parallel_windows") "parallel_windows"
  let dupErrs :=
    assertUniqueIdsG (tasksPair.1.map (fun t => t.id)) "tasks" ++
    assertUniqueIdsG (cpPair.1.map (fun g => g.id)) "critical_paths" ++
    assertUniqueIdsG (pwPair.1.map (fun g => g.id)) "parallel_windows"
  ({ version := versionOf fields, project := (parsedProject fields).1,
     tasks := tasksPair.1, criticalPaths := cpPair.1,
     parallelWindows := pwPair.1 },
   versionErrsOf fields ++ (parsedProject fields).2.map PErr.top ++
     tasksShapeErrsOf fields ++ tasksPair.2 ++ cpPair.2 ++ pwPair.2 ++ dupErrs)

/-- A failure of the generator run: the non-object root throw, the
schema-phase throw with all collected schema errors, or the
parity-phase throw with all collected graph-integrity errors. -/
inductive DepIssue where
  | selfDependency
  | missingDependency (depId : String)
deriving DecidableEq, Repr

inductive GPErr where
  | taskRefs (taskId : String) (issues : List DepIssue)
  | criticalPathRef (pathId : String) (taskId : String)
  | parallelWindowRef (windowId : String) (taskId : String)
  | cycle (path : List String)
deriving DecidableEq, Repr

inductive GenFailure where
  | notObjectRoot
  | schema (errs : List PErr)
  | parity (errs : List GPErr)
deriving DecidableEq, Repr

/-- `parseTasksYaml(content)` of the generator, on the parsed YAML
value: a non-object root throws immediately; otherwise all schema
errors are collected and thrown together, and only an error-free
document is returned. -/
def parseTasksYaml (docv : JVal) : Except GenFailure ParsedDoc :=
  match docv with
  | .obj fields =>
    if (parseTasksYamlParts fields).2.isEmpty then .ok (parseTasksYamlParts fields).1
    else .error (.schema (parseTasksYamlParts fields).2)
  | _ => .error .notObjectRoot

/-! ## Generator script: cycle detection and graph parity -/

/-- The per-dependency check of `validateGraphParity`: self-dependency
is reported before the missing-dependency check. -/
def taskDepIssues (taskIds : List String) (task : GTask) : List DepIssue :=
  task.blocked_by.filterMap (fun dependency =>
    if dependency == task.id then some .selfDependency
    else if taskIds.contains dependency then none
    else some (.missingDependency dependency))

/-- `depsByTask` of `detectDependencyCycles`: the map from task id to
its `blocked_by` list, empty for unknown ids. -/
def depsByTaskOf (tasks : List GTask) (taskId : String) : List String :=
  match tasks.find? (fun t => t.id == taskId) with
  | some t => t.blocked_by
  | none => []

def stateUpdate (st : String → Nat) (k : String) (v : Nat) : String → Nat :=
  fun x => if x == k then v else st x

/-- The recursive `dfs(taskId, stack)` of `detectDependencyCycles`,
with the three-colour state map (0 unvisited, 1 on stack, 2 resolved)
and the error list threaded explicitly.  A back-edge to a state-1 node
reports the stack path from that node back to itself; the dependency
loop of the source is the inner `foldl`.  The fuel argument only bounds
the recursion depth; the top-level call supplies `tasks.length + 2`,
which exceeds the depth any scan can reach (the chain of nested calls
grows only through unvisited nodes, plus one final frame on a visited
node). -/
def dfsCycles (deps : String → List String) : Nat → String → List String →
    (String → Nat) → List GPErr → ((String → Nat) × List GPErr)
  | 0, _, _, st, errs => (st, errs)
  | fuel + 1, taskId, stack, st, errs =>
    if st taskId == 1 then
      let cycleStart := stack.indexOf taskId
      let cyclePath := stack.drop cycleStart ++ [taskId]
      (st, errs ++ [.cycle cyclePath])
    else if st taskId == 2 then (st, errs)
    else
      let st1 := stateUpdate st taskId 1
      let r := (deps taskId).foldl
        (fun acc d => dfsCycles deps fuel d (stack ++ [taskId]) acc.1 acc.2)
        (st1, errs)
      (stateUpdate r.1 taskId 2, r.2)

/-- `detectDependencyCycles(tasks)` of the generator: scan every task
in declaration order as a root when it is still unvisited, collecting
every reported cycle across all roots. -/
def detectDependencyCycles (tasks : List GTask) : List GPErr :=
  let deps := depsByTaskOf tasks
  let fuel := tasks.length + 2
  (tasks.foldl
    (fun acc task =>
      if acc.1 task.id == 0 then dfsCycles deps fuel task.id [] acc.1 acc.2
      else acc)
    ((fun _ => 0), [])).2

/-- `validateGraphParity(parsed)` of the generator, as the list of all
collected graph-integrity errors (the source throws when the list is
non-empty): per-task reference errors, critical-path and
parallel-window reference errors, then every cycle error. -/
def validateGraphParity (parsed : ParsedDoc) : List GPErr :=
  let taskIds := parsed.tasks.map (fun t => t.id)
  let taskErrs := parsed.tasks.filterMap (fun task =>
    let issues := taskDepIssues taskIds task
    if issues.isEmpty then none else some (GPErr.taskRefs task.id issues))
  let cpErrs := parsed.criticalPaths.flatMap (fun cp =>
    cp.tasks.filterMap (fun tid =>
      if taskIds.contains tid then none
      else some (GPErr.criticalPathRef cp.id tid)))
  let pwErrs := parsed.parallelWindows.flatMap (fun pw =>
    pw.tasks.filterMap (fun tid =>
      if taskIds.contains tid then none
      else some (GPErr.parallelWindowRef pw.id tid)))
  taskErrs ++ cpErrs ++ pwErrs ++ detectDependencyCycles parsed.tasks

/-! ## Generator script: derived edges -/

structure Edge where
  fromId : String
  toId : String
  etype : String
deriving DecidableEq, Repr

/-- The sort comparator of `buildGraph` (`localeCompare` on `from`,
then on `to`), modelled with code-point string order. -/
def edgeLe (a b : Edge) : Bool :=
  if a.fromId != b.fromId then strLtB a.fromId b.fromId
  else strLeB a.toId b.toId

/-- The inner dependency loop of the edge pass: an edge is pushed
unless its string key `dep ++ "->" ++ id` was already seen. -/
def collectTaskEdges (taskId : String) :
    List String → List String × List Edge → List String × List Edge
  | [], acc => acc
  | dependency :: rest, (seen, acc) =>
    let key := dependency ++ "->" ++ taskId
    if seen.contains key then collectTaskEdges taskId rest (seen, acc)
    else collectTaskEdges taskId rest (key :: seen, acc ++ [⟨dependency, taskId, "blocks"⟩])

def collectEdges : List GTask → List String × List Edge → List String × List Edge
  | [], acc => acc
  | task :: rest, acc => collectEdges rest (collectTaskEdges task.id task.blocked_by acc)

/-- The `edges` list of `buildGraph(parsed)`: one pass over the tasks
in declaration order deduplicating by the string key, then the
deterministic sort. -/
def buildEdges (tasks : List GTask) : List Edge :=
  sortByLe edgeLe ((collectEdges tasks ([], [])).2)

/-- The generator run for a parsed document value: schema parse, then
graph parity (throwing with all parity errors), then the derived edge
list of the emitted artifact (the remaining artifact fields — nodes,
timestamps, versions — are direct copies outside the claims here). -/
def generateTaskGraph (docv : JVal) : Except GenFailure (List Edge) :=
  match parseTasksYaml docv with
  | .error e => .error e
  | .ok parsed =>
    let parityErrs := validateGraphParity parsed
    if parityErrs.isEmpty then .ok (buildEdges parsed.tasks)
    else .error (.parity parityErrs)

/-! ## Helper notions and lemmas -/

/-- The state of the record a status holds for a task, when any. -/
def recState (status : Status) (t : String) : Option TState :=
  (status.tasks t).map (fun r => r.state)

/-- The `blocked_by` list the plan holds for a task (empty when the
plan has no such task; for plans built by the loaders every task of
`taskOrder` is present). -/
def planBlockedBy (plan : Plan) (t : String) : List String :=
  ((plan.tasksById t).map (fun task => task.blocked_by)).getD []

theorem dependencyDone_iff {status : Status} {d : String} :
    dependencyDone status d = true ↔ recState status d = some .done := by
  unfold dependencyDone recState
  cases status.tasks d <;> simp

theorem readyPredicate_iff (plan : Plan) (status : Status) (taskId : String) :
    ((match status.tasks taskId with
      | none => false
      | some taskStatus =>
        taskStatus.state == TState.todo &&
          (match plan.tasksById taskId with
           | some task => taskIsUnblocked task status
           | none => false)) = true)
    ↔ (recState status taskId = some .todo ∧ (plan.tasksById taskId).isSome ∧
        ∀ d ∈ planBlockedBy plan taskId, recState status d = some .done) := by
  cases hst : status.tasks taskId <;> cases htb : plan.tasksById taskId <;>
    simp [recState, planBlockedBy, hst, htb, taskIsUnblocked,
      List.all_eq_true, dependencyDone_iff]

theorem mem_getReadyTaskIds {plan : Plan} {status : Status} {t : String}
    (hwf : ∀ x ∈ plan.taskOrder, (plan.tasksById x).isSome) :
    t ∈ getReadyTaskIds plan status ↔
      t ∈ plan.taskOrder ∧ recState status t = some .todo ∧
        ∀ d ∈ planBlockedBy plan t, recState status d = some .done := by
  unfold getReadyTaskIds
  rw [List.mem_filter]
  constructor
  · rintro ⟨ht, hp⟩
    have h2 := (readyPredicate_iff plan status t).mp hp
    exact ⟨ht, h2.1, h2.2.2⟩
  · rintro ⟨ht, h1, h2⟩
    exact ⟨ht, (readyPredicate_iff plan status t).mpr ⟨h1, hwf t ht, h2⟩⟩

/-- Shared fixture shapes for concrete witnesses. -/
def mkCTask (id : String) (deps : List String) : CTask :=
  { id := id, title := "t", blocked_by := deps, acceptance := ["a"],
    deliverables := ["d"], context := [] }

def planOf (tasks : List CTask) : Plan :=
  ⟨"demo", tasks.map (fun t => t.id),
    fun t => tasks.find? (fun task => task.id == t)⟩

def statusOf (entries : List (String × TaskStatusRecord)) : Status :=
  ⟨"demo", fun t => (entries.find? (fun p => p.1 == t)).map (fun p => p.2)⟩

def todoRecord : TaskStatusRecord := defaultTaskStatus

def doneRecord : TaskStatusRecord :=
  { defaultTaskStatus with state := .done, result_summary := "ok" }

/-! ## Claims -/

/-- C1.  For every validated task graph and status snapshot, the
readiness computation returns exactly those task IDs whose own record
state is `todo` and all of whose `blocked_by` dependencies have records
in state `done`, listed in the graph's original task declaration order
(a sublist of `taskOrder`); in particular it never returns a task one
of whose dependencies is not in state `done`, and a task with empty
`blocked_by` is returned whenever its record state is `todo`.  The
hypothesis says the plan is the shape the loaders build: every declared
task has a plan entry (the snapshot may be arbitrary; a task with a
missing record is treated as not ready, which only strengthens the
statement). -/
theorem getReadyTaskIds_spec (plan : Plan) (status : Status)
    (hwf : ∀ x ∈ plan.taskOrder, (plan.tasksById x).isSome) :
    (getReadyTaskIds plan status).Sublist plan.taskOrder ∧
    (∀ t, t ∈ getReadyTaskIds plan status ↔
      t ∈ plan.taskOrder ∧ recState status t = some .todo ∧
        ∀ d ∈ planBlockedBy plan t, recState status d = some .done) ∧
    (∀ t ∈ getReadyTaskIds plan status,
      ∀ d ∈ planBlockedBy plan t, recState status d = some .done) ∧
    (∀ t ∈ plan.taskOrder, planBlockedBy plan t = [] →
      recState status t = some .todo → t ∈ getReadyTaskIds plan status) := by
  refine ⟨List.filter_sublist _, fun t => mem_getReadyTaskIds hwf, ?_, ?_⟩
  · intro t ht
    exact ((mem_getReadyTaskIds hwf).mp ht).2.2
  · intro t ht hempty hstate
    exact (mem_getReadyTaskIds hwf).mpr ⟨ht, hstate, by rw [hempty]; intro d hd; cases hd⟩

def readyWPlan : Plan :=
  planOf [mkCTask "A" [], mkCTask "B" ["A"], mkCTask "C" ["B"]]

def readyWStatus : Status :=
  statusOf [("A", doneRecord), ("B", todoRecord), ("C", todoRecord)]

/-- Witness for C1: on a three-task chain with `A` done, the theorem
applies and singles out exactly `B`. -/
theorem getReadyTaskIds_spec_witness :
    (∀ x ∈ readyWPlan.taskOrder, (readyWPlan.tasksById x).isSome) ∧
    getReadyTaskIds readyWPlan readyWStatus = ["B"] ∧
    ("B" ∈ getReadyTaskIds readyWPlan readyWStatus ↔
      "B" ∈ readyWPlan.taskOrder ∧ recState readyWStatus "B" = some .todo ∧
        ∀ d ∈ planBlockedBy readyWPlan "B", recState readyWStatus d = some .done) := by
  refine ⟨by decide, by decide, ?_⟩
  exact (getReadyTaskIds_spec readyWPlan readyWStatus (by decide)).2.1 "B"

/-- The record `loadStatus` hands the transition commands for a task:
the stored record, or the materialised default. -/
def loadedRecord (status : Status) (t : String) : TaskStatusRecord :=
  (status.tasks t).getD defaultTaskStatus

theorem exceptIsOk_ok {ε α : Type} (a : α) : (Except.ok a : Except ε α).isOk = true := rfl

theorem exceptIsOk_error {ε α : Type} (e : ε) : (Except.error e : Except ε α).isOk = false := rfl

/-- The accepted branch of the complete transition, as an explicit
record. -/
theorem commandCompleteCore_ok_eq (record : TaskStatusRecord) (result : CResult)
    (summaryText : String) (filesChanged testsRun blockers nextUnblocked : List String)
    (owner now : String)
    (hstate : record.state = .todo ∨ record.state = .in_progress) :
    commandCompleteCore record result summaryText filesChanged testsRun
        blockers nextUnblocked owner now =
      .ok { state := if result = .done then .done else .blocked,
            owner := if owner != "" then owner else record.owner,
            attempts := record.attempts,
            started_at := some (record.started_at.getD now),
            finished_at := some now,
            blockers := if result = .done then []
                        else if blockers.length > 0 then blockers
                        else ["task reported " ++ resultName result],
            files_changed := filesChanged,
            tests_run := testsRun,
            result_summary := summaryText,
            next_unblocked_tasks := nextUnblocked } := by
  have hcond : (record.state != .in_progress && record.state != .todo) = false := by
    rcases hstate with h | h <;> simp [h]
  rw [commandCompleteCore]
  simp only [hcond, Bool.false_eq_true, if_false]
  cases hres : result <;>
    cases hsa : record.started_at <;>
      by_cases ho : owner = "" <;>
        simp [hsa, ho, resultName]

/-- C2.  The complete operation is accepted exactly when the current
record state is `todo` or `in_progress`, and returns an error (no
mutation is persisted) when the state is already `done` or `blocked`.
On result `done` it sets state `done` and clears `blockers`; on
`blocked` or `failed` it sets state `blocked` and sets `blockers` to
the given list, or to the one-element synthetic list naming the
reported result when the given list is empty (`failed` with no
blockers yields `["task reported failed"]`).  Every accepted call
records `finished_at`, `result_summary`, `files_changed`, `tests_run`
and `next_unblocked_tasks`, backfills `started_at` when absent, and
leaves `attempts` untouched. -/
theorem commandComplete_spec (record : TaskStatusRecord) (result : CResult)
    (summaryText : String) (filesChanged testsRun blockers nextUnblocked : List String)
    (owner now : String) :
    ((commandCompleteCore record result summaryText filesChanged testsRun
        blockers nextUnblocked owner now).isOk
      ↔ (record.state = .todo ∨ record.state = .in_progress)) ∧
    ((record.state = .done ∨ record.state = .blocked) →
      ∃ e, commandCompleteCore record result summaryText filesChanged testsRun
        blockers nextUnblocked owner now = .error e) ∧
    (∀ r2, commandCompleteCore record result summaryText filesChanged testsRun
        blockers nextUnblocked owner now = .ok r2 →
      r2.finished_at = some now ∧
      r2.result_summary = summaryText ∧
      r2.files_changed = filesChanged ∧
      r2.tests_run = testsRun ∧
      r2.next_unblocked_tasks = nextUnblocked ∧
      r2.attempts = record.attempts ∧
      r2.started_at = some (record.started_at.getD now) ∧
      (result = .done → r2.state = .done ∧ r2.blockers = []) ∧
      ((result = .blocked ∨ result = .failed) →
        r2.state = .blocked ∧
        r2.blockers = (if blockers = [] then ["task reported " ++ resultName result]
                       else blockers))) := by
  refine ⟨?_, ?_, ?_⟩
  · constructor
    · intro hOk
      cases hs : record.state
      · exact Or.inl rfl
      · exact Or.inr rfl
      · rw [commandCompleteCore] at hOk
        simp [hs, exceptIsOk_error] at hOk
      · rw [commandCompleteCore] at hOk
        simp [hs, exceptIsOk_error] at hOk
    · intro hstate
      rw [commandCompleteCore_ok_eq record result summaryText filesChanged
        testsRun blockers nextUnblocked owner now hstate]
      exact exceptIsOk_ok _
  · intro h
    refine ⟨"Task cannot be completed from state " ++ stateToString record.state, ?_⟩
    rw [commandCompleteCore]
    rcases h with h | h <;> simp [h]
  · intro r2 h
    have hstate : record.state = .todo ∨ record.state = .in_progress := by
      cases hs : record.state
      · exact Or.inl rfl
      · exact Or.inr rfl
      · rw [commandCompleteCore] at h; simp [hs] at h
      · rw [commandCompleteCore] at h; simp [hs] at h
    rw [commandCompleteCore_ok_eq record result summaryText filesChanged
      testsRun blockers nextUnblocked owner now hstate] at h
    injection h with h
    subst h
    refine ⟨rfl, rfl, rfl, rfl, rfl, rfl, rfl, ?_, ?_⟩
    · intro hres
      subst hres
      exact ⟨by simp, by simp⟩
    · intro hres
      have hnd : result ≠ .done := by rcases hres with h | h <;> subst h <;> simp
      refine ⟨by simp [hnd], ?_⟩
      simp only [if_neg hnd]
      cases blockers <;> simp

def completeWRecord : TaskStatusRecord :=
  { defaultTaskStatus with
    state := .in_progress
    attempts := 1
    started_at := some "t0"
    owner := "w" }

/-- Witness for C2: completing an in-progress record with result
`failed` and no blockers yields state `blocked` and the synthetic
blocker list; completing an already-`done` record is rejected. -/
theorem commandComplete_spec_witness :
    ((commandCompleteCore completeWRecord .failed "s" [] [] [] [] "" "t1").isOk
      ↔ (completeWRecord.state = .todo ∨ completeWRecord.state = .in_progress)) ∧
    (∀ r2, commandCompleteCore completeWRecord .failed "s" [] [] [] [] "" "t1" = .ok r2 →
      r2.finished_at = some "t1" ∧ r2.result_summary = "s" ∧
      r2.files_changed = [] ∧ r2.tests_run = [] ∧ r2.next_unblocked_tasks = [] ∧
      r2.attempts = completeWRecord.attempts ∧
      r2.started_at = some (completeWRecord.started_at.getD "t1") ∧
      (CResult.failed = CResult.done → r2.state = .done ∧ r2.blockers = []) ∧
      ((CResult.failed = CResult.blocked ∨ CResult.failed = CResult.failed) →
        r2.state = .blocked ∧
        r2.blockers = (if ([] : List String) = [] then ["task reported failed"] else []))) ∧
    ((doneRecord.state = .done ∨ doneRecord.state = .blocked) →
      ∃ e, commandCompleteCore doneRecord .done "s" [] [] [] [] "" "t1" = .error e) := by
  have h1 := commandComplete_spec completeWRecord .failed "s" [] [] [] [] "" "t1"
  have h2 := commandComplete_spec doneRecord .done "s" [] [] [] [] "" "t1"
  exact ⟨h1.1, h1.2.2, h2.2.1⟩

theorem taskIsUnblocked_iff {task : CTask} {status : Status} :
    taskIsUnblocked task status = true ↔
      ∀ d ∈ task.blocked_by, recState status d = some .done := by
  simp [taskIsUnblocked, List.all_eq_true, dependencyDone_iff]

/-- The successful branch of the start transition, as an explicit
record. -/
theorem markTaskStarted_ok_eq (plan : Plan) (status : Status)
    (taskId owner now : String) (task : CTask)
    (htask : plan.tasksById taskId = some task)
    (hdeps : taskIsUnblocked task status = true)
    (hstate : (loadedRecord status taskId).state = .todo) :
    markTaskStarted plan status taskId owner now =
      .ok { loadedRecord status taskId with
        state := .in_progress
        owner := owner
        attempts := (loadedRecord status taskId).attempts + 1
        started_at := some now
        finished_at := none
        blockers := []
        files_changed := []
        tests_run := []
        result_summary := ""
        next_unblocked_tasks := [] } := by
  rw [markTaskStarted, htask]
  simp only [loadedRecord] at hstate ⊢
  simp [hdeps, hstate]

/-- C3.  The start operation succeeds exactly when the task exists in
the plan, the current record state is `todo`, and every dependency has
a record in state `done`; otherwise it returns an error and no state
is written.  On success it sets state `in_progress`, increments
`attempts` by one, records `started_at` and the owner, and clears
`finished_at`, `blockers`, `files_changed`, `tests_run`,
`result_summary` and `next_unblocked_tasks`; consequently, starting a
fresh `todo` record and immediately completing it with result `done`
leaves `blockers` empty and `attempts = 1`. -/
theorem markTaskStarted_spec (plan : Plan) (status : Status)
    (taskId owner now : String) :
    ((markTaskStarted plan status taskId owner now).isOk ↔
      ((plan.tasksById taskId).isSome ∧
        (loadedRecord status taskId).state = .todo ∧
        ∀ d ∈ planBlockedBy plan taskId, recState status d = some .done)) ∧
    (∀ r1, markTaskStarted plan status taskId owner now = .ok r1 →
      r1.state = .in_progress ∧
      r1.owner = owner ∧
      r1.attempts = (loadedRecord status taskId).attempts + 1 ∧
      r1.started_at = some now ∧
      r1.finished_at = none ∧ r1.blockers = [] ∧ r1.files_changed = [] ∧
      r1.tests_run = [] ∧ r1.result_summary = "" ∧
      r1.next_unblocked_tasks = []) ∧
    (loadedRecord status taskId = defaultTaskStatus →
      (plan.tasksById taskId).isSome →
      (∀ d ∈ planBlockedBy plan taskId, recState status d = some .done) →
      ∃ r1, markTaskStarted plan status taskId owner now = .ok r1 ∧
        ∀ summaryText files tests bl nx owner2 now2,
          ∃ r2, commandCompleteCore r1 .done summaryText files tests bl nx owner2 now2 = .ok r2 ∧
            r2.blockers = [] ∧ r2.attempts = 1) := by
  refine ⟨?_, ?_, ?_⟩
  · constructor
    · intro hOk
      cases htask : plan.tasksById taskId with
      | none =>
        rw [markTaskStarted, htask] at hOk
        simp [exceptIsOk_error] at hOk
      | some task =>
        by_cases hdeps : taskIsUnblocked task status = true
        · by_cases hstate : (loadedRecord status taskId).state = .todo
          · refine ⟨by simp [htask], hstate, ?_⟩
            intro d hd
            rw [planBlockedBy, htask] at hd
            simp at hd
            exact taskIsUnblocked_iff.mp hdeps d hd
          · exfalso
            have h2 : (((status.tasks taskId).getD defaultTaskStatus).state != TState.todo) = true := by
              rw [bne_iff_ne]
              simpa [loadedRecord] using hstate
            rw [markTaskStarted, htask] at hOk
            simp [hdeps, h2, exceptIsOk_error] at hOk
        · exfalso
          have h2 : taskIsUnblocked task status = false := by
            simpa using hdeps
          rw [markTaskStarted, htask] at hOk
          simp [h2, exceptIsOk_error] at hOk
    · rintro ⟨hsome, hstate, hdeps⟩
      obtain ⟨task, htask⟩ := Option.isSome_iff_exists.mp hsome
      have hub : taskIsUnblocked task status = true := by
        apply taskIsUnblocked_iff.mpr
        intro d hd
        apply hdeps
        rw [planBlockedBy, htask]
        simpa using hd
      rw [markTaskStarted_ok_eq plan status taskId owner now task htask hub hstate]
      exact exceptIsOk_ok _
  · intro r1 h
    cases htask : plan.tasksById taskId with
    | none =>
      rw [markTaskStarted, htask] at h
      exact absurd h (by simp)
    | some task =>
      by_cases hdeps : taskIsUnblocked task status = true
      · by_cases hstate : (loadedRecord status taskId).state = .todo
        · rw [markTaskStarted_ok_eq plan status taskId owner now task htask hdeps hstate] at h
          injection h with h
          subst h
          exact ⟨rfl, rfl, rfl, rfl, rfl, rfl, rfl, rfl, rfl, rfl⟩
        · exfalso
          have h2 : (((status.tasks taskId).getD defaultTaskStatus).state != TState.todo) = true := by
            rw [bne_iff_ne]
            simpa [loadedRecord] using hstate
          rw [markTaskStarted, htask] at h
          simp [hdeps, h2] at h
      · exfalso
        have h2 : taskIsUnblocked task status = false := by
          simpa using hdeps
        rw [markTaskStarted, htask] at h
        simp [h2] at h
  · intro hfresh hsome hdeps
    obtain ⟨task, htask⟩ := Option.isSome_iff_exists.mp hsome
    have hub : taskIsUnblocked task status = true := by
      apply taskIsUnblocked_iff.mpr
      intro d hd
      apply hdeps
      rw [planBlockedBy, htask]
      simpa using hd
    have hstate : (loadedRecord status taskId).state = .todo := by
      rw [hfresh]
      rfl
    refine ⟨_, markTaskStarted_ok_eq plan status taskId owner now task htask hub hstate, ?_⟩
    intro summaryText files tests bl nx owner2 now2
    rw [commandCompleteCore_ok_eq _ .done summaryText files tests bl nx owner2 now2 (Or.inr rfl)]
    refine ⟨_, rfl, by simp, ?_⟩
    show (loadedRecord status taskId).attempts + 1 = 1
    rw [hfresh]
    rfl

def startWPlan : Plan := planOf [mkCTask "A" [], mkCTask "B" ["A"]]

def startWStatus : Status := statusOf [("A", doneRecord), ("B", todoRecord)]

/-- Witness for C3: starting the fresh task `B` (dependency `A` done)
and completing it with result `done` leaves `blockers` empty and
`attempts = 1`. -/
theorem markTaskStarted_spec_witness :
    loadedRecord startWStatus "B" = defaultTaskStatus ∧
    (startWPlan.tasksById "B").isSome ∧
    (∀ d ∈ planBlockedBy startWPlan "B", recState startWStatus d = some .done) ∧
    (∃ r1, markTaskStarted startWPlan startWStatus "B" "w" "t0" = .ok r1 ∧
      ∀ summaryText files tests bl nx owner2 now2,
        ∃ r2, commandCompleteCore r1 .done summaryText files tests bl nx owner2 now2 = .ok r2 ∧
          r2.blockers = [] ∧ r2.attempts = 1) := by
  refine ⟨by decide, by decide, by decide, ?_⟩
  exact (markTaskStarted_spec startWPlan startWStatus "B" "w" "t0").2.2
    (by decide) (by decide) (by decide)

/-! ## Trim lemmas -/

theorem dropWhile_idem (p : α → Bool) (l : List α) :
    (l.dropWhile p).dropWhile p = l.dropWhile p := by
  induction l with
  | nil => rfl
  | cons a as ih =>
    by_cases h : p a = true
    · simp [List.dropWhile_cons, h, ih]
    · simp [List.dropWhile_cons, h]

theorem trimEndChars_append_ws (cs : List Char) :
    ∃ ws, cs = trimEndChars cs ++ ws ∧ ∀ c ∈ ws, jsIsSpace c = true := by
  refine ⟨(cs.reverse.takeWhile jsIsSpace).reverse, ?_, ?_⟩
  · conv_lhs => rw [← cs.reverse_reverse]
    rw [trimEndChars, ← List.reverse_append, List.takeWhile_append_dropWhile]
  · intro c hc
    rw [List.mem_reverse] at hc
    exact List.mem_takeWhile_imp hc

theorem trimEndChars_idem (cs : List Char) :
    trimEndChars (trimEndChars cs) = trimEndChars cs := by
  unfold trimEndChars
  rw [List.reverse_reverse, dropWhile_idem]

theorem dropWhile_eq_self_of_head (p : α → Bool) (h : α) (t : List α)
    (hh : p h = false) : (h :: t).dropWhile p = h :: t := by
  simp [List.dropWhile_cons, hh]

theorem dropWhile_length_le_self (p : α → Bool) (t : List α) :
    (t.dropWhile p).length ≤ t.length := by
  induction t with
  | nil => simp
  | cons a as ih =>
    rw [List.dropWhile_cons]
    by_cases h : p a = true
    · rw [if_pos h]; exact Nat.le_succ_of_le ih
    · rw [if_neg h]

theorem head_not_space_of_dropWhile_eq (p : α → Bool) (h : α) (t : List α)
    (heq : (h :: t).dropWhile p = h :: t) : p h = false := by
  by_contra hcon
  have hp : p h = true := by
    cases hval : p h
    · exact absurd hval hcon
    · rfl
  rw [List.dropWhile_cons, if_pos hp] at heq
  have hle := dropWhile_length_le_self p t
  rw [heq] at hle
  simp at hle

theorem dropWhile_trimEndChars_dropWhile (cs : List Char) :
    (trimEndChars (cs.dropWhile jsIsSpace)).dropWhile jsIsSpace =
      trimEndChars (cs.dropWhile jsIsSpace) := by
  cases hd : trimEndChars (cs.dropWhile jsIsSpace) with
  | nil => rfl
  | cons h t =>
    apply dropWhile_eq_self_of_head
    obtain ⟨ws, hws, _⟩ := trimEndChars_append_ws (cs.dropWhile jsIsSpace)
    rw [hd] at hws
    have hself : ((h :: (t ++ ws)).dropWhile jsIsSpace) = h :: (t ++ ws) := by
      have := dropWhile_idem jsIsSpace cs
      rw [hws] at this
      simpa using this
    exact head_not_space_of_dropWhile_eq jsIsSpace h (t ++ ws) hself

theorem trimChars_idem (cs : List Char) :
    trimChars (trimChars cs) = trimChars cs := by
  show trimEndChars ((trimEndChars (cs.dropWhile jsIsSpace)).dropWhile jsIsSpace) =
    trimEndChars (cs.dropWhile jsIsSpace)
  rw [dropWhile_trimEndChars_dropWhile, trimEndChars_idem]

theorem jsTrim_idem (s : String) : jsTrim (jsTrim s) = jsTrim s := by
  show String.mk (trimChars (String.mk (trimChars s.data)).data) = String.mk (trimChars s.data)
  show String.mk (trimChars (trimChars s.data)) = String.mk (trimChars s.data)
  rw [trimChars_idem]

theorem jsTrimEnd_append_ws (s : String) :
    ∃ ws, s.data = (jsTrimEnd s).data ++ ws ∧ ∀ c ∈ ws, jsIsSpace c = true := by
  obtain ⟨ws, hws, hall⟩ := trimEndChars_append_ws s.data
  exact ⟨ws, by simpa [jsTrimEnd] using hws, hall⟩

/-! ## Normalization lemmas -/

theorem normalizeState_cases (ov : Option JVal) :
    normalizeState ov = .todo ∨
      ov = some (.str (stateToString (normalizeState ov))) := by
  unfold normalizeState
  split
  · exact Or.inr rfl
  · exact Or.inr rfl
  · exact Or.inr rfl
  · exact Or.inr rfl
  · exact Or.inl rfl

theorem normalizeAttempts_spec (ov : Option JVal) :
    0 ≤ normalizeAttempts ov ∧
      (normalizeAttempts ov = 0 ∨
        (0 < normalizeAttempts ov ∧
          ∃ n rep, ov = some (.number true n rep) ∧ normalizeAttempts ov = n)) := by
  cases ov with
  | none => exact ⟨le_refl 0, Or.inl rfl⟩
  | some w =>
    cases w with
    | number isInt n rep =>
      cases isInt with
      | false => exact ⟨le_refl 0, Or.inl rfl⟩
      | true =>
        by_cases h : 0 < n
        · have hval : normalizeAttempts (some (.number true n rep)) = n := by
            simp [normalizeAttempts, h]
          rw [hval]
          exact ⟨le_of_lt h, Or.inr ⟨h, n, rep, rfl, rfl⟩⟩
        · have hval : normalizeAttempts (some (.number true n rep)) = 0 := by
            simp [normalizeAttempts, h]
          rw [hval]
          exact ⟨le_refl 0, Or.inl rfl⟩
    | null => exact ⟨le_refl 0, Or.inl rfl⟩
    | boolean b => exact ⟨le_refl 0, Or.inl rfl⟩
    | str s => exact ⟨le_refl 0, Or.inl rfl⟩
    | arr es => exact ⟨le_refl 0, Or.inl rfl⟩
    | obj fs => exact ⟨le_refl 0, Or.inl rfl⟩

theorem normalizeString_trimmed (ov : Option JVal) :
    jsTrim (normalizeString ov) = normalizeString ov := by
  unfold normalizeString
  split
  · rfl
  · rfl
  · exact jsTrim_idem _

theorem normalizeStringList_spec (ov : Option JVal) :
    ∀ x ∈ normalizeStringList ov, x ≠ "" ∧ jsTrim x = x := by
  intro x hx
  unfold normalizeStringList at hx
  split at hx
  · rw [List.mem_filter] at hx
    refine ⟨by simpa using hx.2, ?_⟩
    obtain ⟨item, -, rfl⟩ := List.mem_map.mp hx.1
    exact normalizeString_trimmed _
  · cases hx

/-- C10.  Record normalization at the load boundary is total: for an
arbitrary stored value the loaded record's state is the stored state
string when it is one of the four valid states and `todo` otherwise
(so always in the enum), `attempts` is non-negative and equals the
stored value exactly when that value is a positive integer (otherwise
0), and every list field contains only non-empty trimmed strings;
consequently reading a status snapshot only fails at the document root
(a non-object root, i.e. the parse boundary), never on the shape of an
individual record. -/
theorem normalizeTaskStatusRecord_spec (v : Option JVal) :
    ((normalizeTaskStatusRecord v).state = .todo ∨
      objGet (recordFields v) "state" =
        some (.str (stateToString (normalizeTaskStatusRecord v).state))) ∧
    0 ≤ (normalizeTaskStatusRecord v).attempts ∧
    ((normalizeTaskStatusRecord v).attempts = 0 ∨
      (0 < (normalizeTaskStatusRecord v).attempts ∧
        ∃ n rep, objGet (recordFields v) "attempts" = some (.number true n rep) ∧
          (normalizeTaskStatusRecord v).attempts = n)) ∧
    (∀ x ∈ (normalizeTaskStatusRecord v).blockers ++
        (normalizeTaskStatusRecord v).files_changed ++
        (normalizeTaskStatusRecord v).tests_run ++
        (normalizeTaskStatusRecord v).next_unblocked_tasks,
      x ≠ "" ∧ jsTrim x = x) ∧
    (∀ fields, (readStatusSnapshot (.obj fields)).isOk = true) ∧
    (∀ w : JVal, (readStatusSnapshot w).isOk = true ↔ ∃ fields, w = .obj fields) := by
  refine ⟨?_, ?_, ?_, ?_, ?_, ?_⟩
  · have h := normalizeState_cases (objGet (recordFields v) "state")
    simpa [normalizeTaskStatusRecord] using h
  · have h := (normalizeAttempts_spec (objGet (recordFields v) "attempts")).1
    simpa [normalizeTaskStatusRecord] using h
  · have h := (normalizeAttempts_spec (objGet (recordFields v) "attempts")).2
    simpa [normalizeTaskStatusRecord] using h
  · intro x hx
    simp only [normalizeTaskStatusRecord, List.mem_append] at hx
    rcases hx with ((hx | hx) | hx) | hx <;>
      exact normalizeStringList_spec _ x hx
  · intro fields
    rfl
  · intro w
    cases w <;> simp [readStatusSnapshot, exceptIsOk_ok, exceptIsOk_error]

def corruptedRecordDoc : Option JVal :=
  some (.obj
    [("state", .str "bogus"),
     ("attempts", .number false 0 "2.5"),
     ("blockers", .arr [.str "  x  ", .null, .number true 3 "3"]),
     ("owner", .number true 7 "7")])

/-- Witness for C10: a thoroughly malformed record normalizes without
failure — unrecognized state coerces to `todo`, the non-integer
attempts value becomes 0, and the blockers list keeps only the trimmed
non-empty entries. -/
theorem normalizeTaskStatusRecord_spec_witness :
    0 ≤ (normalizeTaskStatusRecord corruptedRecordDoc).attempts ∧
    (readStatusSnapshot (.obj [])).isOk = true ∧
    (∀ x ∈ (normalizeTaskStatusRecord corruptedRecordDoc).blockers ++
        (normalizeTaskStatusRecord corruptedRecordDoc).files_changed ++
        (normalizeTaskStatusRecord corruptedRecordDoc).tests_run ++
        (normalizeTaskStatusRecord corruptedRecordDoc).next_unblocked_tasks,
      x ≠ "" ∧ jsTrim x = x) ∧
    (normalizeTaskStatusRecord corruptedRecordDoc).state = .todo ∧
    (normalizeTaskStatusRecord corruptedRecordDoc).attempts = 0 ∧
    (normalizeTaskStatusRecord corruptedRecordDoc).blockers = ["x", "3"] := by
  have h := normalizeTaskStatusRecord_spec corruptedRecordDoc
  exact ⟨h.2.1, h.2.2.2.2.1 [], h.2.2.2.1, by decide, by decide, by decide⟩

/-- C6 counterexample.  The claim says a spec document of at most 200
lines is included verbatim in full.  The two-line document "x\n"
(one content line plus the empty segment after the trailing newline)
is well under the limit, yet the excerpt is `content.trimEnd()`,
which drops the trailing newline: the excerpt is "x", not "x\n". -/
theorem resolveSpecExcerpt_verbatim_counterexample :
    (splitLines "x\n").length ≤ 200 ∧
    resolveSpecExcerpt true "x\n" [] = { excerpt := "x", mode := .full } ∧
    (resolveSpecExcerpt true "x\n" []).excerpt ≠ "x\n" := by decide

/-- C6 amended.  For every existing spec document whose
split-on-newline segment count is at most 200 (a trailing newline
contributes one extra segment), the assembler includes the document in
full up to removal of trailing whitespace (`content.trimEnd()`),
regardless of the task's `context` entries: the result is the trimmed
content in `full` mode, it is identical for every context, and the
document is exactly the excerpt followed by whitespace. -/
theorem resolveSpecExcerpt_short_full (content : String) (context : List String)
    (hlen : (splitLines content).length ≤ 200) :
    resolveSpecExcerpt true content context =
      { excerpt := jsTrimEnd content, mode := .full } ∧
    (∀ context2, resolveSpecExcerpt true content context2 =
      resolveSpecExcerpt true content context) ∧
    (∃ ws, content.data = (resolveSpecExcerpt true content context).excerpt.data ++ ws ∧
      ∀ c ∈ ws, jsIsSpace c = true) := by
  have h1 : resolveSpecExcerpt true content context =
      { excerpt := jsTrimEnd content, mode := .full } := by
    simp [resolveSpecExcerpt, hlen]
  refine ⟨h1, ?_, ?_⟩
  · intro context2
    rw [h1]
    simp [resolveSpecExcerpt, hlen]
  · rw [h1]
    exact jsTrimEnd_append_ws content

/-- Witness for the amended C6: a 200-segment-or-fewer document is
returned whole (trimmed) for an arbitrary context. -/
theorem resolveSpecExcerpt_short_full_witness :
    (splitLines "hello\nworld").length ≤ 200 ∧
    (resolveSpecExcerpt true "hello\nworld" ["some context"] =
      { excerpt := jsTrimEnd "hello\nworld", mode := .full } ∧
    (∀ context2, resolveSpecExcerpt true "hello\nworld" context2 =
      resolveSpecExcerpt true "hello\nworld" ["some context"]) ∧
    (∃ ws, ("hello\nworld" : String).data =
        (resolveSpecExcerpt true "hello\nworld" ["some context"]).excerpt.data ++ ws ∧
      ∀ c ∈ ws, jsIsSpace c = true)) :=
  ⟨by decide, resolveSpecExcerpt_short_full "hello\nworld" ["some context"] (by decide)⟩

/-! ## Cycle detection instances -/

def gTaskOf (id : String) (deps : List String) : GTask :=
  { id := id, phase := "p", priority := "low", title := "t",
    blocked_by := deps, acceptance := ["a"], deliverables := ["d"],
    owner_type := "qa", estimate := "1", notes := "", context := [] }

def cycleMissTasks : List GTask :=
  [gTaskOf "A" ["B", "C"], gTaskOf "B" ["A"], gTaskOf "C" ["B"]]

/-- C5 counterexample.  The claim says every reachable cycle is
reported.  In the graph `A blocked_by [B, C]`, `B blocked_by [A]`,
`C blocked_by [A? no, B]` both `A -> B -> A` and `A -> C -> B -> A`
are cycles, but the scan reports only the first: when the traversal
reaches `B` again through `C`, `B` is already fully resolved
(state 2), so the second cycle is silently missed. -/
theorem detectDependencyCycles_counterexample :
    ("C" ∈ depsByTaskOf cycleMissTasks "A" ∧
     "B" ∈ depsByTaskOf cycleMissTasks "C" ∧
     "A" ∈ depsByTaskOf cycleMissTasks "B") ∧
    detectDependencyCycles cycleMissTasks = [.cycle ["A", "B", "A"]] ∧
    GPErr.cycle ["A", "C", "B", "A"] ∉ detectDependencyCycles cycleMissTasks := by
  decide

def cycleTriangleDoc : ParsedDoc :=
  ⟨some 3, "demo",
   [gTaskOf "A" ["B"], gTaskOf "B" ["C"], gTaskOf "C" ["A"]], [], []⟩

/-- Helper for C5: a `dfs` call never discards errors already
reported — its error output extends its error input. -/
theorem dfsCycles_errs_append (deps : String → List String) :
    ∀ fuel taskId stack st errs, ∃ extra,
      (dfsCycles deps fuel taskId stack st errs).2 = errs ++ extra := by
  intro fuel
  induction fuel with
  | zero =>
    intro taskId stack st errs
    exact ⟨[], by simp [dfsCycles]⟩
  | succ fuel ih =>
    have hfold : ∀ stack2 (ds : List String) st errs, ∃ extra,
        (ds.foldl (fun acc d => dfsCycles deps fuel d stack2 acc.1 acc.2)
          (st, errs)).2 = errs ++ extra := by
      intro stack2 ds
      induction ds with
      | nil => intro st errs; exact ⟨[], by simp⟩
      | cons d rest ihds =>
        intro st errs
        simp only [List.foldl_cons]
        obtain ⟨e1, he1⟩ := ih d stack2 st errs
        obtain ⟨e2, he2⟩ := ihds (dfsCycles deps fuel d stack2 st errs).1
          (dfsCycles deps fuel d stack2 st errs).2
        refine ⟨e1 ++ e2, ?_⟩
        rw [← List.append_assoc, ← he1]
        exact he2
    intro taskId stack st errs
    rw [dfsCycles]
    by_cases h1 : st taskId == 1
    · simp only [h1, if_true]
      exact ⟨[.cycle (stack.drop (stack.indexOf taskId) ++ [taskId])], rfl⟩
    · by_cases h2 : st taskId == 2
      · simp only [h1, h2, if_false, if_true]
        exact ⟨[], by simp⟩
      · simp only [h1, h2, if_false]
        obtain ⟨extra, hex⟩ := hfold (stack ++ [taskId]) (deps taskId)
          (stateUpdate st taskId 1) errs
        exact ⟨extra, hex⟩

/-- C5 amended.  Cycle detection reports a back-edge to a node
currently on the traversal stack as the stack path from that node back
to itself, continues the scan from every unvisited root, and never
discards already-reported cycles (the `dfs` error output extends its
input; two disjoint two-node cycles are both reported) — but a cycle
whose back-edge reaches an already fully-resolved node is not
reported.  For `A blocked_by [B]`, `B blocked_by [C]`,
`C blocked_by [A]`, validation reports exactly the single cycle
`A -> B -> C -> A`, traversing all three tasks and returning to its
start. -/
theorem detectDependencyCycles_amended :
    detectDependencyCycles
        [gTaskOf "A" ["B"], gTaskOf "B" ["C"], gTaskOf "C" ["A"]] =
      [.cycle ["A", "B", "C", "A"]] ∧
    validateGraphParity cycleTriangleDoc = [.cycle ["A", "B", "C", "A"]] ∧
    detectDependencyCycles
        [gTaskOf "P" ["Q"], gTaskOf "Q" ["P"], gTaskOf "R" ["S"], gTaskOf "S" ["R"]] =
      [.cycle ["P", "Q", "P"], .cycle ["R", "S", "R"]] ∧
    (∀ deps fuel taskId stack st errs, ∃ extra,
      (dfsCycles deps fuel taskId stack st errs).2 = errs ++ extra) := by
  refine ⟨by decide, by decide, by decide, dfsCycles_errs_append⟩

/-! ## Snapshot round-trip lemmas -/

theorem find?_map_of_mem {β : Type} (g : String → β) :
    ∀ (keys : List String) (t : String), t ∈ keys →
      (keys.map (fun k => (k, g k))).find? (fun p => p.1 == t) = some (t, g t) := by
  intro keys
  induction keys with
  | nil => intro t ht; cases ht
  | cons k rest ih =>
    intro t ht
    by_cases hk : k = t
    · subst hk
      rw [List.map_cons]
      exact List.find?_cons_of_pos _ (by simp)
    · have hmem : t ∈ rest := by
        rcases List.mem_cons.mp ht with h | h
        · exact absurd h.symm hk
        · exact h
      rw [List.map_cons, List.find?_cons_of_neg _ (by simp [hk]), ih t hmem]

theorem objGet_map_of_mem (f : String → JVal) (keys : List String) (t : String)
    (ht : t ∈ keys) :
    objGet (keys.map (fun k => (k, f k))) t = some (f t) := by
  unfold objGet
  rw [← List.map_reverse, find?_map_of_mem f keys.reverse t (List.mem_reverse.mpr ht)]
  rfl

theorem normalize_recordToJVal_state (r : TaskStatusRecord) :
    (normalizeTaskStatusRecord (some (recordToJVal r))).state = r.state := by
  show normalizeState (objGet (recordFields (some (recordToJVal r))) "state") = r.state
  have hget : objGet (recordFields (some (recordToJVal r))) "state" =
      some (.str (stateToString r.state)) := rfl
  rw [hget]
  cases r.state <;> rfl

/-- C8.  Exporting a status snapshot and re-importing it into a fresh
store via bootstrap-from-snapshot yields identical per-task states for
every task present in both the snapshot (the exporting plan order) and
the importing plan; a project-name mismatch produces a warning but
the import still succeeds (and with matching projects there is no
warning).  The hypothesis `hproj` records that loader-built project
names are trimmed. -/
theorem bootstrapImport_roundtrip (status : Status) (taskOrder1 : List String)
    (plan2 : Plan) (updatedAt : String) (t : String)
    (ht1 : t ∈ taskOrder1) (ht2 : t ∈ plan2.taskOrder)
    (hproj : jsTrim status.project = status.project) :
    ∃ result,
      bootstrapImportFresh plan2 (writeStatusSnapshot status taskOrder1 updatedAt) =
        .ok result ∧
      ((result.records.find? (fun p => p.1 == t)).map
          (fun p => p.2.state)) = some (loadedRecord status t).state ∧
      (status.project ≠ "" → status.project ≠ plan2.project →
        result.warnings ≠ []) ∧
      (status.project = plan2.project → result.warnings = []) := by
  have hread : readStatusSnapshot (writeStatusSnapshot status taskOrder1 updatedAt) =
      .ok ⟨jsTrim status.project,
        taskOrder1.map (fun tid => (tid, recordToJVal (loadedRecord status tid)))⟩ := rfl
  have hboot : bootstrapImportFresh plan2 (writeStatusSnapshot status taskOrder1 updatedAt) =
      .ok { records := plan2.taskOrder.map (fun taskId =>
              (taskId, normalizeTaskStatusRecord (objGet
                (taskOrder1.map (fun tid => (tid, recordToJVal (loadedRecord status tid))))
                taskId)))
            warnings :=
              if jsTrim status.project != "" && jsTrim status.project != plan2.project
              then ["Imported status project \"" ++ jsTrim status.project ++
                "\" does not match plan project \"" ++ plan2.project ++
                "\". Using plan project."]
              else [] } := by
    unfold bootstrapImportFresh
    rw [hread]
  refine ⟨_, hboot, ?_, ?_, ?_⟩
  · have hfind := find?_map_of_mem
      (fun taskId => normalizeTaskStatusRecord (objGet
        (taskOrder1.map (fun tid => (tid, recordToJVal (loadedRecord status tid)))) taskId))
      plan2.taskOrder t ht2
    rw [hfind]
    have hobj := objGet_map_of_mem
      (fun tid => recordToJVal (loadedRecord status tid)) taskOrder1 t ht1
    show some ((normalizeTaskStatusRecord (objGet
      (taskOrder1.map (fun tid => (tid, recordToJVal (loadedRecord status tid)))) t)).state) =
      some ((loadedRecord status t).state)
    rw [hobj, normalize_recordToJVal_state]
  · intro hne hmix
    rw [hproj]
    have hcond : (status.project != "" && status.project != plan2.project) = true := by
      simp [hne, hmix]
    simp [hcond]
  · intro heq
    rw [hproj]
    have hcond : (status.project != "" && status.project != plan2.project) = false := by
      simp [heq]
    simp [hcond]

def roundtripStatus : Status :=
  ⟨"projA", fun t =>
    if t == "T1" then some doneRecord
    else if t == "T2" then some completeWRecord
    else none⟩

def roundtripPlan : Plan := ⟨"projB", ["T2", "T3"], fun _ => none⟩

/-- Witness for C8: exporting two tasks under project `projA` and
re-importing under a different plan (`projB`, sharing task `T2`)
preserves the state of `T2` and surfaces the mismatch warning without
failing. -/
theorem bootstrapImport_roundtrip_witness :
    ("T2" ∈ ["T1", "T2"]) ∧ ("T2" ∈ roundtripPlan.taskOrder) ∧
    jsTrim roundtripStatus.project = roundtripStatus.project ∧
    (∃ result,
      bootstrapImportFresh roundtripPlan
          (writeStatusSnapshot roundtripStatus ["T1", "T2"] "t9") = .ok result ∧
      ((result.records.find? (fun p => p.1 == "T2")).map
          (fun p => p.2.state)) = some (loadedRecord roundtripStatus "T2").state ∧
      (roundtripStatus.project ≠ "" → roundtripStatus.project ≠ roundtripPlan.project →
        result.warnings ≠ []) ∧
      (roundtripStatus.project = roundtripPlan.project → result.warnings = [])) :=
  ⟨by decide, by decide, by decide,
    bootstrapImport_roundtrip roundtripStatus ["T1", "T2"] roundtripPlan "t9" "T2"
      (by decide) (by decide) (by decide)⟩

/-! ## Code-point order and sort lemmas -/

theorem charEq_of_toNat_eq {a b : Char} (h : a.toNat = b.toNat) : a = b :=
  Char.ext (UInt32.ext h)

theorem charListLt_connex : ∀ as bs : List Char, as ≠ bs →
    (charListLt as bs || charListLt bs as) = true := by
  intro as
  induction as with
  | nil =>
    intro bs h
    cases bs with
    | nil => exact absurd rfl h
    | cons b bs => simp [charListLt]
  | cons a as ih =>
    intro bs h
    cases bs with
    | nil => simp [charListLt]
    | cons b bs =>
      by_cases hab : a.toNat < b.toNat
      · simp [charListLt, hab]
      · by_cases hba : b.toNat < a.toNat
        · simp [charListLt, hab, hba]
        · have heq : a = b := charEq_of_toNat_eq (by omega)
          subst heq
          have hne : as ≠ bs := by
            intro hcon
            exact h (by rw [hcon])
          have hrec := ih bs hne
          simpa [charListLt, hab, hba] using hrec

theorem charListLt_trans : ∀ as bs cs : List Char, charListLt as bs = true →
    charListLt bs cs = true → charListLt as cs = true := by
  intro as
  induction as with
  | nil =>
    intro bs cs h1 h2
    cases cs with
    | nil =>
      cases bs with
      | nil => simp [charListLt] at h1
      | cons b bs => simp [charListLt] at h2
    | cons c cs => simp [charListLt]
  | cons a as ih =>
    intro bs cs h1 h2
    cases bs with
    | nil => simp [charListLt] at h1
    | cons b bs =>
      cases cs with
      | nil => simp [charListLt] at h2
      | cons c cs =>
        by_cases hab : a.toNat < b.toNat <;> by_cases hbc : b.toNat < c.toNat
        · have hac : a.toNat < c.toNat := Nat.lt_trans hab hbc
          simp [charListLt, hac]
        · by_cases hcb : c.toNat < b.toNat
          · simp [charListLt, hbc, hcb] at h2
          · have hac : a.toNat < c.toNat := by omega
            simp [charListLt, hac]
        · by_cases hba : b.toNat < a.toNat
          · simp [charListLt, hab, hba] at h1
          · have hac : a.toNat < c.toNat := by omega
            simp [charListLt, hac]
        · by_cases hba : b.toNat < a.toNat
          · simp [charListLt, hab, hba] at h1
          · by_cases hcb : c.toNat < b.toNat
            · simp [charListLt, hbc, hcb] at h2
            · have h1b : charListLt as bs = true := by
                simpa [charListLt, hab, hba] using h1
              have h2b : charListLt bs cs = true := by
                simpa [charListLt, hbc, hcb] using h2
              have hac1 : ¬ a.toNat < c.toNat := by omega
              have hac2 : ¬ c.toNat < a.toNat := by omega
              simpa [charListLt, hac1, hac2] using ih bs cs h1b h2b

theorem charListLt_irrefl : ∀ as : List Char, charListLt as as = false := by
  intro as
  induction as with
  | nil => rfl
  | cons a as ih => simpa [charListLt] using ih

theorem strLtB_connex {a b : String} (h : a ≠ b) :
    (strLtB a b || strLtB b a) = true := by
  apply charListLt_connex
  intro hcon
  exact h (String.ext hcon)

theorem strLtB_trans {a b c : String} (h1 : strLtB a b = true)
    (h2 : strLtB b c = true) : strLtB a c = true :=
  charListLt_trans _ _ _ h1 h2

theorem strLtB_irrefl (a : String) : strLtB a a = false :=
  charListLt_irrefl _

theorem strLtB_ne {a b : String} (h : strLtB a b = true) : a ≠ b := by
  intro hcon
  subst hcon
  rw [strLtB_irrefl] at h
  exact absurd h (by simp)

theorem strLeB_total (a b : String) : (strLeB a b || strLeB b a) = true := by
  by_cases h : a = b
  · subst h
    simp [strLeB]
  · have hor := strLtB_connex h
    rw [Bool.or_eq_true] at hor
    rcases hor with h1 | h1 <;> simp [strLeB, h1]

theorem strLeB_trans {a b c : String} (h1 : strLeB a b = true)
    (h2 : strLeB b c = true) : strLeB a c = true := by
  unfold strLeB at *
  rw [Bool.or_eq_true] at h1 h2
  rcases h1 with ha | ha <;> rcases h2 with hb | hb
  · simp [strLtB_trans ha hb]
  · have : b = c := by simpa using hb
    subst this
    simp [ha]
  · have : a = b := by simpa using ha
    subst this
    simp [hb]
  · have hab : a = b := by simpa using ha
    subst hab
    simp [hb]

theorem edgeLe_total (a b : Edge) : (edgeLe a b || edgeLe b a) = true := by
  unfold edgeLe
  by_cases hf : a.fromId = b.fromId
  · have e1 : (a.fromId != b.fromId) = false := by simp [hf]
    have e2 : (b.fromId != a.fromId) = false := by simp [hf]
    rw [e1, e2]
    simp only [Bool.false_eq_true, if_false]
    exact strLeB_total _ _
  · have e1 : (a.fromId != b.fromId) = true := bne_iff_ne.mpr hf
    have e2 : (b.fromId != a.fromId) = true := bne_iff_ne.mpr (Ne.symm hf)
    rw [e1, e2]
    simp only [if_true]
    exact strLtB_connex hf

theorem edgeLe_trans (a b c : Edge) (h1 : edgeLe a b = true)
    (h2 : edgeLe b c = true) : edgeLe a c = true := by
  unfold edgeLe at *
  by_cases hab : a.fromId = b.fromId <;> by_cases hbc : b.fromId = c.fromId
  · have hac : a.fromId = c.fromId := hab.trans hbc
    have e1 : (a.fromId != b.fromId) = false := by simp [hab]
    have e2 : (b.fromId != c.fromId) = false := by simp [hbc]
    have e3 : (a.fromId != c.fromId) = false := by simp [hac]
    rw [e1] at h1
    rw [e2] at h2
    rw [e3]
    simp only [Bool.false_eq_true, if_false] at h1 h2 ⊢
    exact strLeB_trans h1 h2
  · have hac : a.fromId ≠ c.fromId := by rw [hab]; exact hbc
    have e2 : (b.fromId != c.fromId) = true := bne_iff_ne.mpr hbc
    have e3 : (a.fromId != c.fromId) = true := bne_iff_ne.mpr hac
    rw [e2] at h2
    rw [e3]
    simp only [if_true] at h2 ⊢
    rw [hab]
    exact h2
  · have e1 : (a.fromId != b.fromId) = true := bne_iff_ne.mpr hab
    rw [e1] at h1
    simp only [if_true] at h1
    have hac : a.fromId ≠ c.fromId := by
      rw [← hbc]
      exact strLtB_ne h1
    have e3 : (a.fromId != c.fromId) = true := bne_iff_ne.mpr hac
    rw [e3]
    simp only [if_true]
    rw [← hbc]
    exact h1
  · have e1 : (a.fromId != b.fromId) = true := bne_iff_ne.mpr hab
    have e2 : (b.fromId != c.fromId) = true := bne_iff_ne.mpr hbc
    rw [e1] at h1
    rw [e2] at h2
    simp only [if_true] at h1 h2
    have hlt : strLtB a.fromId c.fromId = true := strLtB_trans h1 h2
    have e3 : (a.fromId != c.fromId) = true := bne_iff_ne.mpr (strLtB_ne hlt)
    rw [e3]
    simpa using hlt

theorem insertLe_perm (le : α → α → Bool) (a : α) (l : List α) :
    (insertLe le a l).Perm (a :: l) := by
  induction l with
  | nil => exact List.Perm.refl _
  | cons b bs ih =>
    unfold insertLe
    by_cases h : le a b = true
    · rw [if_pos h]
    · rw [if_neg h]
      exact (ih.cons b).trans (List.Perm.swap a b bs)

theorem sortByLe_perm (le : α → α → Bool) (l : List α) :
    (sortByLe le l).Perm l := by
  induction l with
  | nil => exact List.Perm.refl _
  | cons a as ih =>
    exact (insertLe_perm le a (sortByLe le as)).trans (ih.cons a)

theorem insertLe_pairwise (le : α → α → Bool)
    (htot : ∀ a b, (le a b || le b a) = true)
    (htrans : ∀ a b c, le a b = true → le b c = true → le a c = true)
    (a : α) (l : List α) (hl : l.Pairwise (fun x y => le x y = true)) :
    (insertLe le a l).Pairwise (fun x y => le x y = true) := by
  induction l with
  | nil => simp [insertLe]
  | cons b bs ih =>
    rw [List.pairwise_cons] at hl
    unfold insertLe
    by_cases h : le a b = true
    · rw [if_pos h]
      refine List.pairwise_cons.mpr ⟨?_, List.pairwise_cons.mpr ⟨hl.1, hl.2⟩⟩
      intro x hx
      rcases List.mem_cons.mp hx with rfl | hx
      · exact h
      · exact htrans a b x h (hl.1 x hx)
    · rw [if_neg h]
      have hba : le b a = true := by
        have h2 := htot a b
        rw [Bool.or_eq_true] at h2
        rcases h2 with h2 | h2
        · exact absurd h2 h
        · exact h2
      refine List.pairwise_cons.mpr ⟨?_, ih hl.2⟩
      intro x hx
      have hx2 : x ∈ a :: bs := (insertLe_perm le a bs).mem_iff.mp hx
      rcases List.mem_cons.mp hx2 with rfl | hx2
      · exact hba
      · exact hl.1 x hx2

theorem sortByLe_pairwise (le : α → α → Bool)
    (htot : ∀ a b, (le a b || le b a) = true)
    (htrans : ∀ a b c, le a b = true → le b c = true → le a c = true)
    (l : List α) :
    (sortByLe le l).Pairwise (fun x y => le x y = true) := by
  induction l with
  | nil => simp [sortByLe]
  | cons a as ih =>
    exact insertLe_pairwise le htot htrans a (sortByLe le as) ih

/-! ## Edge collection lemmas -/

/-- The dedup keys of the edge pass, in generation order. -/
def edgeKeys (tasks : List GTask) : List String :=
  tasks.flatMap (fun t => t.blocked_by.map (fun d => d ++ "->" ++ t.id))

theorem contains_false_of_notMem {α : Type} [BEq α] [LawfulBEq α]
    {l : List α} {a : α} (h : a ∉ l) : l.contains a = false := by
  cases hc : l.contains a
  · rfl
  · exact absurd (List.elem_iff.mp hc) h

theorem collectTaskEdges_eq (taskId : String) :
    ∀ (ds seen : List String) (acc : List Edge),
      (∀ d ∈ ds, (d ++ "->" ++ taskId) ∉ seen) →
      (ds.map (fun d => d ++ "->" ++ taskId)).Nodup →
      ∃ seen2, collectTaskEdges taskId ds (seen, acc) =
        (seen2, acc ++ ds.map (fun d => Edge.mk d taskId "blocks")) ∧
        (∀ k, k ∈ seen2 ↔ k ∈ seen ∨ k ∈ ds.map (fun d => d ++ "->" ++ taskId)) := by
  intro ds
  induction ds with
  | nil =>
    intro seen acc _ _
    exact ⟨seen, by simp [collectTaskEdges], by simp⟩
  | cons d rest ih =>
    intro seen acc hfresh hnodup
    have hd : (d ++ "->" ++ taskId) ∉ seen := hfresh d (by simp)
    have hcontains : seen.contains (d ++ "->" ++ taskId) = false :=
      contains_false_of_notMem hd
    rw [List.map_cons, List.nodup_cons] at hnodup
    have hfresh2 : ∀ d2 ∈ rest, (d2 ++ "->" ++ taskId) ∉ (d ++ "->" ++ taskId) :: seen := by
      intro d2 hd2 hcon
      rcases List.mem_cons.mp hcon with hcon | hcon
      · exact hnodup.1 (hcon ▸ List.mem_map_of_mem _ hd2)
      · exact hfresh d2 (List.mem_cons_of_mem _ hd2) hcon
    obtain ⟨seen2, heq, hmem⟩ := ih ((d ++ "->" ++ taskId) :: seen)
      (acc ++ [Edge.mk d taskId "blocks"]) hfresh2 hnodup.2
    refine ⟨seen2, ?_, ?_⟩
    · rw [collectTaskEdges, hcontains]
      simp only [Bool.false_eq_true, if_false]
      rw [heq, List.map_cons, List.append_assoc]
      rfl
    · intro k
      rw [hmem k]
      simp only [List.mem_cons, List.map_cons]
      tauto

theorem collectEdges_eq :
    ∀ (tasks : List GTask) (seen : List String) (acc : List Edge),
      (∀ k ∈ edgeKeys tasks, k ∉ seen) →
      (edgeKeys tasks).Nodup →
      ∃ seen2, collectEdges tasks (seen, acc) =
        (seen2, acc ++ tasks.flatMap (fun t =>
          t.blocked_by.map (fun d => Edge.mk d t.id "blocks"))) ∧
        (∀ k, k ∈ seen2 ↔ k ∈ seen ∨ k ∈ edgeKeys tasks) := by
  intro tasks
  induction tasks with
  | nil =>
    intro seen acc _ _
    exact ⟨seen, by simp [collectEdges], by simp [edgeKeys]⟩
  | cons t rest ih =>
    intro seen acc hfresh hnodup
    have hsplit : edgeKeys (t :: rest) =
        t.blocked_by.map (fun d => d ++ "->" ++ t.id) ++ edgeKeys rest := by
      simp [edgeKeys]
    rw [hsplit] at hfresh hnodup
    rw [List.nodup_append] at hnodup
    obtain ⟨seen2, heq1, hmem1⟩ := collectTaskEdges_eq t.id t.blocked_by seen acc
      (fun d hd => hfresh _ (List.mem_append_left _ (List.mem_map_of_mem _ hd)))
      hnodup.1
    have hfresh2 : ∀ k ∈ edgeKeys rest, k ∉ seen2 := by
      intro k hk hcon
      rcases (hmem1 k).mp hcon with hcon | hcon
      · exact hfresh k (List.mem_append_right _ hk) hcon
      · exact hnodup.2.2 hcon hk
    obtain ⟨seen3, heq2, hmem2⟩ := ih seen2
      (acc ++ t.blocked_by.map (fun d => Edge.mk d t.id "blocks"))
      hfresh2 hnodup.2.1
    refine ⟨seen3, ?_, ?_⟩
    · rw [collectEdges]
      have hpair : collectTaskEdges t.id t.blocked_by (seen, acc) =
          (seen2, acc ++ t.blocked_by.map (fun d => Edge.mk d t.id "blocks")) := heq1
      rw [hpair, heq2, List.flatMap_cons, ← List.append_assoc]
    · intro k
      rw [hmem2 k, hmem1 k, hsplit, List.mem_append]
      tauto

/-- C9 counterexample.  The dedup key of an edge is the plain string
`from ++ "->" ++ to`, so two distinct dependency pairs can collide
when task ids themselves contain `"->"`.  The fully valid document
with tasks `a`, `a->b`, `c` (blocked by `a->b`) and `b->c` (blocked by
`a`) derives two distinct pairs — (`a->b`, `c`) and (`a`, `b->c`) —
whose keys are both `"a->b->c"`: the generated edge list contains only
the first, and no edge for the pair (`a`, `b->c`) at all. -/
theorem buildEdges_counterexample :
    validateGraphParity ⟨some 3, "demo",
      [gTaskOf "a" [], gTaskOf "a->b" [], gTaskOf "c" ["a->b"], gTaskOf "b->c" ["a"]],
      [], []⟩ = [] ∧
    (gTaskOf "b->c" ["a"]) ∈
      [gTaskOf "a" [], gTaskOf "a->b" [], gTaskOf "c" ["a->b"], gTaskOf "b->c" ["a"]] ∧
    "a" ∈ (gTaskOf "b->c" ["a"]).blocked_by ∧
    buildEdges [gTaskOf "a" [], gTaskOf "a->b" [], gTaskOf "c" ["a->b"], gTaskOf "b->c" ["a"]] =
      [Edge.mk "a->b" "c" "blocks"] ∧
    (∀ e ∈ buildEdges
        [gTaskOf "a" [], gTaskOf "a->b" [], gTaskOf "c" ["a->b"], gTaskOf "b->c" ["a"]],
      ¬(e.fromId = "a" ∧ e.toId = "b->c")) := by
  decide

/-- C9 amended.  Provided the dedup keys `from ++ "->" ++ to` of the
derived dependency pairs are pairwise distinct (which holds for every
validated document whose task ids do not contain the substring `"->"`:
per-task `blocked_by` lists are deduplicated and task ids are unique),
the generated `edges` list contains exactly one `{from, to, blocks}`
entry per derived (dependency, dependent) pair, and is
deterministically ordered by `from` then `to` (code-point order
modelling `localeCompare`). -/
theorem buildEdges_spec (tasks : List GTask)
    (hkeys : (tasks.flatMap (fun t =>
      t.blocked_by.map (fun d => d ++ "->" ++ t.id))).Nodup) :
    (∀ e, e ∈ buildEdges tasks ↔
      ∃ t ∈ tasks, ∃ d ∈ t.blocked_by, e = Edge.mk d t.id "blocks") ∧
    (buildEdges tasks).Nodup ∧
    (buildEdges tasks).Pairwise (fun a b => edgeLe a b = true) := by
  obtain ⟨seen2, heq, -⟩ := collectEdges_eq tasks [] [] (by simp) hkeys
  have hraw : (collectEdges tasks ([], [])).2 =
      tasks.flatMap (fun t => t.blocked_by.map (fun d => Edge.mk d t.id "blocks")) := by
    rw [heq]
    rfl
  have hperm : (buildEdges tasks).Perm
      (tasks.flatMap (fun t => t.blocked_by.map (fun d => Edge.mk d t.id "blocks"))) := by
    rw [buildEdges, hraw]
    exact sortByLe_perm _ _
  refine ⟨?_, ?_, ?_⟩
  · intro e
    rw [hperm.mem_iff]
    constructor
    · intro h
      obtain ⟨t, ht, hmem⟩ := List.mem_flatMap.mp h
      obtain ⟨d, hd, hedge⟩ := List.mem_map.mp hmem
      exact ⟨t, ht, d, hd, hedge.symm⟩
    · rintro ⟨t, ht, d, hd, rfl⟩
      exact List.mem_flatMap.mpr ⟨t, ht, List.mem_map_of_mem _ hd⟩
  · have hmapkeys : (tasks.flatMap (fun t =>
        t.blocked_by.map (fun d => Edge.mk d t.id "blocks"))).map
          (fun e => e.fromId ++ "->" ++ e.toId) =
        tasks.flatMap (fun t => t.blocked_by.map (fun d => d ++ "->" ++ t.id)) := by
      have hfun : (fun (a : GTask) =>
          (a.blocked_by.map (fun d => Edge.mk d a.id "blocks")).map
            (fun e => e.fromId ++ "->" ++ e.toId)) =
          (fun (a : GTask) => a.blocked_by.map (fun d => d ++ "->" ++ a.id)) := by
        funext a
        rw [List.map_map]
        rfl
      rw [List.map_flatMap, hfun]
    have hnd : (tasks.flatMap (fun t =>
        t.blocked_by.map (fun d => Edge.mk d t.id "blocks"))).Nodup := by
      apply List.Nodup.of_map (f := fun e => e.fromId ++ "->" ++ e.toId)
      rw [hmapkeys]
      exact hkeys
    exact hperm.nodup_iff.mpr hnd
  · rw [buildEdges]
    exact sortByLe_pairwise edgeLe edgeLe_total edgeLe_trans _

def edgesWTasks : List GTask :=
  [gTaskOf "x" [], gTaskOf "y" ["x"], gTaskOf "z" ["x", "y"]]

/-- Witness for the amended C9: a three-task diamond produces the
three expected edges, sorted by `from` then `to`. -/
theorem buildEdges_spec_witness :
    (edgesWTasks.flatMap (fun t =>
      t.blocked_by.map (fun d => d ++ "->" ++ t.id))).Nodup ∧
    buildEdges edgesWTasks =
      [Edge.mk "x" "y" "blocks", Edge.mk "x" "z" "blocks", Edge.mk "y" "z" "blocks"] ∧
    ((∀ e, e ∈ buildEdges edgesWTasks ↔
      ∃ t ∈ edgesWTasks, ∃ d ∈ t.blocked_by, e = Edge.mk d t.id "blocks") ∧
    (buildEdges edgesWTasks).Nodup ∧
    (buildEdges edgesWTasks).Pairwise (fun a b => edgeLe a b = true)) :=
  ⟨by decide, by decide, buildEdges_spec edgesWTasks (by decide)⟩

/-! ## Heading scan lemmas -/

/-- The slugification C7 ascribes to headings, following the claim's
words ("lower-cased, underscores replaced by hyphens, punctuation
stripped, whitespace and hyphen runs collapsed"): underscore
replacement before slugification.  The source applies this replacement
only to anchors, never to headings. -/
def claimHeadingSlug (s : String) : String :=
  headingSlug (String.mk (s.data.map (fun c => if c == '_' then '-' else c)))

theorem findHeadings_ge (ls : List String) :
    ∀ i, ∀ h ∈ findHeadings i ls, i ≤ h.line := by
  induction ls with
  | nil =>
    intro i h hh
    cases hh
  | cons l rest ih =>
    intro i h hh
    unfold findHeadings at hh
    cases hp : parseHeading l with
    | some v =>
      rw [hp] at hh
      rcases List.mem_cons.mp hh with rfl | hh
      · exact le_refl _
      · exact Nat.le_of_succ_le (ih (i + 1) h hh)
    | none =>
      rw [hp] at hh
      exact Nat.le_of_succ_le (ih (i + 1) h hh)

theorem findHeadings_pairwise (ls : List String) :
    ∀ i, (findHeadings i ls).Pairwise (fun h1 h2 => h1.line < h2.line) := by
  induction ls with
  | nil =>
    intro i
    simp [findHeadings]
  | cons l rest ih =>
    intro i
    unfold findHeadings
    cases hp : parseHeading l with
    | some v =>
      refine List.pairwise_cons.mpr ⟨?_, ih (i + 1)⟩
      intro h hh
      exact Nat.lt_of_succ_le (findHeadings_ge rest (i + 1) h hh)
    | none => exact ih (i + 1)

/-- The section loop with the dead `usedStarts` guard removed: each
heading whose slug is a requested anchor contributes the block from
its line up to the next heading of equal-or-shallower level, trimmed,
skipped when empty, in document order. -/
def sectionsNoUsed (lines anchors : List String) : List Heading → List String
  | [] => []
  | h :: rest =>
    if anchors.contains h.slug then
      let endLine := sectionEndLine lines.length h.level rest
      let txt := jsTrimEnd (String.intercalate "\n"
        ((lines.drop h.line).take (endLine - h.line)))
      let tail := sectionsNoUsed lines anchors rest
      if txt == "" then tail else txt :: tail
    else sectionsNoUsed lines anchors rest

theorem sectionsGo_eq_noUsed (lines anchors : List String) :
    ∀ (hs : List Heading) (used : List Nat),
      (∀ x ∈ used, ∀ h ∈ hs, x < h.line) →
      hs.Pairwise (fun h1 h2 => h1.line < h2.line) →
      sectionsGo lines anchors used hs = sectionsNoUsed lines anchors hs := by
  intro hs
  induction hs with
  | nil => intro used _ _; rfl
  | cons h rest ih =>
    intro used hused hpair
    rw [List.pairwise_cons] at hpair
    have hnotused : h.line ∉ used := by
      intro hcon
      exact absurd (hused h.line hcon h (by simp)) (by omega)
    have hcont : used.contains h.line = false := contains_false_of_notMem hnotused
    unfold sectionsGo sectionsNoUsed
    by_cases hmatch : anchors.contains h.slug = true
    · simp only [hmatch, hcont, Bool.not_false, Bool.and_true, Bool.true_and, if_true]
      have htail : sectionsGo lines anchors (h.line :: used) rest =
          sectionsNoUsed lines anchors rest := by
        apply ih
        · intro x hx h2 hh2
          rcases List.mem_cons.mp hx with rfl | hx
          · exact hpair.1 h2 hh2
          · exact hused x hx h2 (List.mem_cons_of_mem _ hh2)
        · exact hpair.2
      rw [htail]
    · have hmf : anchors.contains h.slug = false := by
        cases hval : anchors.contains h.slug
        · rfl
        · exact absurd hval hmatch
      simp only [hmf, Bool.false_and, Bool.false_eq_true, if_false]
      apply ih
      · intro x hx h2 hh2
        exact hused x hx h2 (List.mem_cons_of_mem _ hh2)
      · exact hpair.2

theorem mem_sectionsNoUsed (lines anchors : List String) :
    ∀ (hs : List Heading), ∀ s ∈ sectionsNoUsed lines anchors hs,
      ∃ h ∈ hs, anchors.contains h.slug = true ∧ s ≠ "" ∧
        ∃ endLine, s = jsTrimEnd (String.intercalate "\n"
          ((lines.drop h.line).take (endLine - h.line))) := by
  intro hs
  induction hs with
  | nil =>
    intro s hin
    cases hin
  | cons h rest ih =>
    intro s hin
    unfold sectionsNoUsed at hin
    by_cases hmatch : anchors.contains h.slug = true
    · rw [if_pos hmatch] at hin
      by_cases hempty : jsTrimEnd (String.intercalate "\n"
          ((lines.drop h.line).take (sectionEndLine lines.length h.level rest - h.line))) = ""
      · rw [if_pos (by simpa using hempty)] at hin
        obtain ⟨h2, hh2, hrest⟩ := ih s hin
        exact ⟨h2, List.mem_cons_of_mem _ hh2, hrest⟩
      · rw [if_neg (by simpa using hempty)] at hin
        rcases List.mem_cons.mp hin with rfl | hin
        · exact ⟨h, by simp, hmatch, hempty, sectionEndLine lines.length h.level rest, rfl⟩
        · obtain ⟨h2, hh2, hrest⟩ := ih s hin
          exact ⟨h2, List.mem_cons_of_mem _ hh2, hrest⟩
    · rw [if_neg hmatch] at hin
      obtain ⟨h2, hh2, hrest⟩ := ih s hin
      exact ⟨h2, List.mem_cons_of_mem _ hh2, hrest⟩

/-- A 201-line spec document whose only level-two heading contains an
underscore. -/
def underscoreSpecContent : String :=
  String.intercalate "\n"
    (["# Top", "## Login_Flow", "login body"] ++ List.replicate 198 "filler")

/-- The 250-line spec document of the claim's example. -/
def loginSpecContent : String :=
  String.intercalate "\n"
    (["# Spec", "## Login Flow", "login body", "## Payment Flow", "payment body"] ++
      List.replicate 245 "filler")

/-- C7 counterexample.  The claim slugifies headings with underscores
replaced by hyphens; the source applies that replacement only to
anchors.  In a 201-line document with the heading `## Login_Flow` and
context `["SPEC.md#login_flow"]`, the claim's heading slug
(`login-flow`) is exactly the requested anchor, so the claim says the
section is extracted — but the code's heading slug keeps the
underscore (`login_flow`), no heading matches, and the assembler
returns no excerpt at all. -/
theorem extractMarkdownSections_counterexample :
    200 < (splitLines underscoreSpecContent).length ∧
    Heading.mk 1 2 "login_flow" ∈ findHeadings 0 (splitLines underscoreSpecContent) ∧
    claimHeadingSlug "Login_Flow" ∈ extractSpecAnchors ["SPEC.md#login_flow"] ∧
    resolveSpecExcerpt true underscoreSpecContent ["SPEC.md#login_flow"] =
      { excerpt := "", mode := .no_matching_sections } := by
  decide

/-- C7 amended.  For a spec document longer than 200 lines and
requested anchors, the assembler extracts, for each heading whose
slug (lower-cased, punctuation stripped, whitespace and hyphen runs
collapsed — underscores preserved; only anchors additionally have
underscores replaced by hyphens) matches a requested anchor, the text
from that heading line up to but not including the next heading of
equal-or-shallower level (or end of document), trimmed of trailing
whitespace, concatenating matched sections in document order: the
`usedStarts` guard of the source never fires (heading lines strictly
increase), so the extraction equals the plain per-heading loop, every
returned section is such a heading block, and on the claim's 250-line
Login/Payment example the excerpt is exactly the Login Flow section
and none of Payment Flow. -/
theorem extractMarkdownSections_spec (content : String) (anchors : List String) :
    (extractMarkdownSections content anchors =
      sectionsNoUsed (splitLines content) anchors (findHeadings 0 (splitLines content))) ∧
    (∀ s ∈ extractMarkdownSections content anchors,
      ∃ h ∈ findHeadings 0 (splitLines content),
        anchors.contains h.slug = true ∧ s ≠ "" ∧
        ∃ endLine, s = jsTrimEnd (String.intercalate "\n"
          (((splitLines content).drop h.line).take (endLine - h.line)))) ∧
    resolveSpecExcerpt true loginSpecContent ["SPEC.md#login-flow"] =
      { excerpt := "## Login Flow\nlogin body", mode := .sections } := by
  have hchar : extractMarkdownSections content anchors =
      sectionsNoUsed (splitLines content) anchors (findHeadings 0 (splitLines content)) := by
    unfold extractMarkdownSections
    exact sectionsGo_eq_noUsed (splitLines content) anchors
      (findHeadings 0 (splitLines content)) []
      (by intro x hx; cases hx) (findHeadings_pairwise _ 0)
  refine ⟨hchar, ?_, by decide⟩
  intro s hs
  rw [hchar] at hs
  exact mem_sectionsNoUsed _ _ _ s hs

/-! ## Validation exhaustiveness lemmas -/

theorem parseTasksList_mem_errs :
    ∀ (ds : List JVal) (start i : Nat) (hv : i < ds.length),
      ∀ e ∈ (parseTaskEntry (start + i) (ds.get ⟨i, hv⟩)).2,
        e ∈ (parseTasksList start ds).2 := by
  intro ds
  induction ds with
  | nil =>
    intro start i hv
    exact absurd hv (by simp)
  | cons v rest ih =>
    intro start i hv e he
    cases i with
    | zero =>
      apply List.mem_append_left
      simpa using he
    | succ i =>
      apply List.mem_append_right
      have harith : start + (i + 1) = (start + 1) + i := by omega
      rw [harith] at he
      exact ih (start + 1) i (by simpa using hv) e he

theorem checkTaskDeps_ok_iff (known : List String) (taskId : String) :
    ∀ ds, (checkTaskDeps known taskId ds).isOk = true ↔
      ∀ d ∈ ds, known.contains d = true ∧ d ≠ taskId := by
  intro ds
  induction ds with
  | nil => simp [checkTaskDeps, exceptIsOk_ok]
  | cons d rest ih =>
    unfold checkTaskDeps
    by_cases hc : known.contains d = true
    · have hcb : (!known.contains d) = false := by rw [hc]; rfl
      rw [hcb]
      simp only [Bool.false_eq_true, if_false]
      by_cases hd : (d == taskId) = true
      · rw [if_pos hd]
        have hdeq : d = taskId := by simpa using hd
        constructor
        · intro h
          rw [exceptIsOk_error] at h
          cases h
        · intro hall
          exact absurd hdeq (hall d (by simp)).2
      · have hdb : (d == taskId) = false := by
          cases hval : (d == taskId)
          · rfl
          · exact absurd hval hd
        rw [hdb]
        simp only [Bool.false_eq_true, if_false]
        rw [ih]
        constructor
        · intro hall d2 hd2
          rcases List.mem_cons.mp hd2 with rfl | hd2
          · exact ⟨hc, by simpa using hdb⟩
          · exact hall d2 hd2
        · intro hall d2 hd2
          exact hall d2 (List.mem_cons_of_mem _ hd2)
    · have hcb : (!known.contains d) = true := by
        cases hval : known.contains d
        · rfl
        · exact absurd hval hc
      rw [if_pos hcb]
      constructor
      · intro h
        rw [exceptIsOk_error] at h
        cases h
      · intro hall
        exact absurd (hall d (by simp)).1 hc

theorem validateDependenciesGo_ok_iff (plan : Plan) (known : List String) :
    ∀ ts, (validateDependenciesGo plan known ts).isOk = true ↔
      ∀ t ∈ ts, ∀ task, plan.tasksById t = some task →
        (checkTaskDeps known t task.blocked_by).isOk = true := by
  intro ts
  induction ts with
  | nil => simp [validateDependenciesGo, exceptIsOk_ok]
  | cons t rest ih =>
    cases htb : plan.tasksById t with
    | none =>
      simp only [validateDependenciesGo, htb]
      rw [ih]
      constructor
      · intro hall t2 ht2 task htask
        rcases List.mem_cons.mp ht2 with rfl | ht2
        · rw [htb] at htask
          cases htask
        · exact hall t2 ht2 task htask
      · intro hall t2 ht2 task htask
        exact hall t2 (List.mem_cons_of_mem _ ht2) task htask
    | some task =>
      simp only [validateDependenciesGo, htb]
      cases hck : checkTaskDeps known t task.blocked_by with
      | error err =>
        show (Except.error err : Except String Unit).isOk = true ↔ _
        rw [exceptIsOk_error]
        constructor
        · intro h
          exact Bool.noConfusion h
        · intro hall
          have hthis := hall t (by simp) task htb
          rw [hck, exceptIsOk_error] at hthis
          exact Bool.noConfusion hthis
      | ok u =>
        show (validateDependenciesGo plan known rest).isOk = true ↔ _
        rw [ih]
        constructor
        · intro hall t2 ht2 task2 htask2
          rcases List.mem_cons.mp ht2 with rfl | ht2
          · rw [htb] at htask2
            injection htask2 with htask2
            subst htask2
            rw [hck]
            rfl
          · exact hall t2 ht2 task2 htask2
        · intro hall t2 ht2 task2 htask2
          exact hall t2 (List.mem_cons_of_mem _ ht2) task2 htask2

/-- A nonempty list is not `isEmpty`. -/
theorem isEmpty_false_of_ne {α : Type} {l : List α} (h : l ≠ []) :
    l.isEmpty = false := by
  cases l with
  | nil => exact absurd rfl h
  | cons a t => rfl

/-- The collected error list of the schema phase, with every `let`
expanded: version check, project field, tasks shape, per-task entries,
both group parsers, then the three duplicate-id checks. -/
theorem parseTasksYamlParts_snd_eq (fields : List (String × JVal)) :
    (parseTasksYamlParts fields).2 =
      versionErrsOf fields ++ (parsedProject fields).2.map PErr.top ++
      tasksShapeErrsOf fields ++ (parseTasksList 0 (rawTasksOf fields)).2 ++
      (parseGroupG (objGet fields "critical_paths") "critical_paths").2 ++
      (parseGroupG (objGet fields "parallel_windows") "parallel_windows").2 ++
      (assertUniqueIdsG ((parseTasksList 0 (rawTasksOf fields)).1.map (fun t => t.id)) "tasks" ++
       assertUniqueIdsG ((parseGroupG (objGet fields "critical_paths") "critical_paths").1.map (fun g => g.id)) "critical_paths" ++
       assertUniqueIdsG ((parseGroupG (objGet fields "parallel_windows") "parallel_windows").1.map (fun g => g.id)) "parallel_windows") :=
  rfl

/-- The parity error list, with every `let` expanded: per-task
reference errors, critical-path references, parallel-window
references, then the cycle errors. -/
theorem validateGraphParity_eq (parsed : ParsedDoc) :
    validateGraphParity parsed =
      (parsed.tasks.filterMap (fun task =>
        if (taskDepIssues (parsed.tasks.map (fun t => t.id)) task).isEmpty then none
        else some (GPErr.taskRefs task.id
          (taskDepIssues (parsed.tasks.map (fun t => t.id)) task)))) ++
      (parsed.criticalPaths.flatMap (fun cp =>
        cp.tasks.filterMap (fun tid =>
          if (parsed.tasks.map (fun t => t.id)).contains tid then none
          else some (GPErr.criticalPathRef cp.id tid)))) ++
      (parsed.parallelWindows.flatMap (fun pw =>
        pw.tasks.filterMap (fun tid =>
          if (parsed.tasks.map (fun t => t.id)).contains tid then none
          else some (GPErr.parallelWindowRef pw.id tid)))) ++
      detectDependencyCycles parsed.tasks :=
  rfl

/-- When the version check fails, it contributes exactly its error. -/
theorem versionErrsOf_of_ne (fields : List (String × JVal))
    (h : versionOf fields ≠ some 3) :
    versionErrsOf fields = [PErr.versionMustBe3] := by
  unfold versionErrsOf
  rw [if_neg h]

/-- When duplicates exist, the unique-id check contributes exactly its
combined error. -/
theorem assertUniqueIdsG_of_ne (ids : List String) (label : String)
    (h : dupsGo [] [] ids ≠ []) :
    assertUniqueIdsG ids label =
      [PErr.duplicateIds label (sortByLe strLeB (dupsGo [] [] ids))] := by
  show (if (dupsGo [] [] ids).isEmpty = true then []
    else [PErr.duplicateIds label (sortByLe strLeB (dupsGo [] [] ids))]) = _
  rw [isEmpty_false_of_ne h]
  simp only [Bool.false_eq_true, if_false]

/-- `parseTasksYaml` on an object root, as the explicit branch on the
collected error list. -/
theorem parseTasksYaml_obj_eq (fields : List (String × JVal)) :
    parseTasksYaml (.obj fields) =
      if (parseTasksYamlParts fields).2.isEmpty then
        .ok (parseTasksYamlParts fields).1
      else .error (.schema (parseTasksYamlParts fields).2) :=
  rfl

/-- A fully valid generator task entry, as a JSON-like object. -/
def c4TaskJ (id : String) (deps : List String) : JVal :=
  .obj [("id", .str id), ("phase", .str "p"), ("priority", .str "low"),
        ("title", .str "t"), ("blocked_by", .arr (deps.map JVal.str)),
        ("acceptance", .arr [.str "a"]), ("deliverables", .arr [.str "d"]),
        ("owner_type", .str "qa"), ("estimate", .str "1")]

/-- The same entry with the required `title` field missing. -/
def c4NoTitleTaskJ (id : String) (deps : List String) : JVal :=
  .obj [("id", .str id), ("phase", .str "p"), ("priority", .str "low"),
        ("blocked_by", .arr (deps.map JVal.str)),
        ("acceptance", .arr [.str "a"]), ("deliverables", .arr [.str "d"]),
        ("owner_type", .str "qa"), ("estimate", .str "1")]

/-- A document with one schema error (task C misses `title`) and a
dependency cycle between A and B. -/
def c4CycleFields : List (String × JVal) :=
  [("version", .number true 3 "3"), ("project", .str "demo"),
   ("tasks", .arr [c4TaskJ "A" ["B"], c4TaskJ "B" ["A"],
                   c4NoTitleTaskJ "C" []])]

/-- A plan whose tasks T1 and T2 each reference a distinct unknown
dependency. -/
def loaderCexPlan : Plan :=
  planOf [mkCTask "T1" ["m1"], mkCTask "T2" ["m2"]]

/-- C4 counterexample.  The claim says a single validation run reports
every error across all checks.  The document `c4CycleFields` has both
a schema error (task C misses its required title) and a dependency
cycle (A and B block each other), yet the single generator run reports
only the schema error and never reaches cycle detection, although the
cycle is present in the very tasks that run parsed. -/
theorem generateTaskGraph_counterexample :
    generateTaskGraph (.obj c4CycleFields) =
      .error (.schema [.taskEntry "C" [.required "tasks[2].title"]]) ∧
    detectDependencyCycles (parseTasksYamlParts c4CycleFields).1.tasks =
      [.cycle ["A", "B", "A"]] :=
  ⟨rfl, by decide⟩

/-- C4 amended.  Validation is exhaustive within each phase, not
across phases.  In the schema phase every per-entry error of every
task entry is in the collected list, a failed version check and the
duplicate-id check each contribute their errors to the same list, and
a failing parse throws with the whole list.  In the parity phase every
per-task reference error, dangling critical-path or parallel-window
reference, and every detected cycle error is in the thrown list.  The
runtime loader instead validates fail-fast: its scan succeeds exactly
when every dependency of every plan task is a known, distinct task id,
and on the two-bad-tasks plan it reports only the first violation. -/
theorem validation_exhaustiveness_spec :
    (∀ (fields : List (String × JVal)) (i : Nat)
        (hv : i < (rawTasksOf fields).length),
      ∀ e ∈ (parseTaskEntry i ((rawTasksOf fields).get ⟨i, hv⟩)).2,
        e ∈ (parseTasksYamlParts fields).2) ∧
    (∀ fields : List (String × JVal), versionOf fields ≠ some 3 →
      PErr.versionMustBe3 ∈ (parseTasksYamlParts fields).2) ∧
    (∀ fields : List (String × JVal),
      dupsGo [] [] ((parseTasksList 0 (rawTasksOf fields)).1.map (fun t => t.id)) ≠ [] →
      PErr.duplicateIds "tasks"
        (sortByLe strLeB (dupsGo [] []
          ((parseTasksList 0 (rawTasksOf fields)).1.map (fun t => t.id)))) ∈
        (parseTasksYamlParts fields).2) ∧
    (∀ fields : List (String × JVal), (parseTasksYamlParts fields).2 ≠ [] →
      parseTasksYaml (.obj fields) = .error (.schema (parseTasksYamlParts fields).2)) ∧
    (∀ (parsed : ParsedDoc) (task : GTask), task ∈ parsed.tasks →
      taskDepIssues (parsed.tasks.map (fun t => t.id)) task ≠ [] →
      GPErr.taskRefs task.id (taskDepIssues (parsed.tasks.map (fun t => t.id)) task) ∈
        validateGraphParity parsed) ∧
    (∀ (parsed : ParsedDoc) (cp : TaskGroup) (tid : String),
      cp ∈ parsed.criticalPaths → tid ∈ cp.tasks →
      (parsed.tasks.map (fun t => t.id)).contains tid = false →
      GPErr.criticalPathRef cp.id tid ∈ validateGraphParity parsed) ∧
    (∀ (parsed : ParsedDoc) (pw : TaskGroup) (tid : String),
      pw ∈ parsed.parallelWindows → tid ∈ pw.tasks →
      (parsed.tasks.map (fun t => t.id)).contains tid = false →
      GPErr.parallelWindowRef pw.id tid ∈ validateGraphParity parsed) ∧
    (∀ parsed : ParsedDoc, ∀ e ∈ detectDependencyCycles parsed.tasks,
      e ∈ validateGraphParity parsed) ∧
    (∀ plan : Plan, (validateDependencies plan).isOk = true ↔
      ∀ t ∈ plan.taskOrder, ∀ task, plan.tasksById t = some task →
        ∀ d ∈ task.blocked_by, plan.taskOrder.contains d = true ∧ d ≠ t) ∧
    validateDependencies loaderCexPlan =
      .error "Task T1 references unknown dependency m1" := by
  refine ⟨?_, ?_, ?_, ?_, ?_, ?_, ?_, ?_, ?_, ?_⟩
  · intro fields i hv e he
    have hmem : e ∈ (parseTasksList 0 (rawTasksOf fields)).2 :=
      parseTasksList_mem_errs (rawTasksOf fields) 0 i hv e
        (by rw [Nat.zero_add]; exact he)
    rw [parseTasksYamlParts_snd_eq]
    simp only [List.mem_append]
    tauto
  · intro fields h
    have hm : PErr.versionMustBe3 ∈ versionErrsOf fields := by
      rw [versionErrsOf_of_ne fields h]
      exact List.mem_singleton.mpr rfl
    rw [parseTasksYamlParts_snd_eq]
    simp only [List.mem_append]
    tauto
  · intro fields h
    have hm : PErr.duplicateIds "tasks"
        (sortByLe strLeB (dupsGo [] []
          ((parseTasksList 0 (rawTasksOf fields)).1.map (fun t => t.id)))) ∈
        assertUniqueIdsG ((parseTasksList 0 (rawTasksOf fields)).1.map (fun t => t.id)) "tasks" := by
      rw [assertUniqueIdsG_of_ne _ _ h]
      exact List.mem_singleton.mpr rfl
    rw [parseTasksYamlParts_snd_eq]
    simp only [List.mem_append]
    tauto
  · intro fields h
    rw [parseTasksYaml_obj_eq, isEmpty_false_of_ne h]
    simp only [Bool.false_eq_true, if_false]
  · intro parsed task ht hne
    rw [validateGraphParity_eq]
    apply List.mem_append_left
    apply List.mem_append_left
    apply List.mem_append_left
    refine List.mem_filterMap.mpr ⟨task, ht, ?_⟩
    rw [isEmpty_false_of_ne hne]
    simp only [Bool.false_eq_true, if_false]
  · intro parsed cp tid hcp htid hcon
    rw [validateGraphParity_eq]
    apply List.mem_append_left
    apply List.mem_append_left
    apply List.mem_append_right
    refine List.mem_flatMap.mpr ⟨cp, hcp, ?_⟩
    refine List.mem_filterMap.mpr ⟨tid, htid, ?_⟩
    rw [hcon]
    simp only [Bool.false_eq_true, if_false]
  · intro parsed pw tid hpw htid hcon
    rw [validateGraphParity_eq]
    apply List.mem_append_left
    apply List.mem_append_right
    refine List.mem_flatMap.mpr ⟨pw, hpw, ?_⟩
    refine List.mem_filterMap.mpr ⟨tid, htid, ?_⟩
    rw [hcon]
    simp only [Bool.false_eq_true, if_false]
  · intro parsed e he
    rw [validateGraphParity_eq]
    exact List.mem_append_right _ he
  · intro plan
    unfold validateDependencies
    rw [validateDependenciesGo_ok_iff]
    constructor
    · intro hall t ht task htask d hd
      exact (checkTaskDeps_ok_iff plan.taskOrder t task.blocked_by).mp
        (hall t ht task htask) d hd
    · intro hall t ht task htask
      exact (checkTaskDeps_ok_iff plan.taskOrder t task.blocked_by).mpr
        (fun d hd => hall t ht task htask d hd)
  · rfl
